import Mathlib

/-!
Verification development for the govtrack bill/term parser
(`parser/bill_parser.py`): a shallow embedding of the record mapping and
reconciliation engine, together with theorems about its upsert, idempotence,
error-handling and reconciliation behavior.

Conventions of the embedding:
* Python exceptions are values of `PyErr`; fallible code returns `Except`.
* The database is an explicit record of lists of rows (`DB`, `TermSt`, `St`).
* Machinery that lives outside the examined source file (the `Processor`
  base class, the Django models, `bill.title`, `person.models`) is modelled
  from the specification and marked as such in doc comments.
-/

/-- The Python exceptions that can escape the code under study. -/
inductive PyErr where
  /-- `MissingRequiredAttributeError` raised by the attribute mapper,
  carrying the name of the first missing required attribute. -/
  | missingAttr (attr : String)
  | keyError
  | typeError
  | valueError
  | indexError
  | integrityError
  | multipleObjectsReturned
deriving DecidableEq, Repr

/-- `normalize_name` (bill_parser.py lines 37-41): `re.sub(r'\s{2,}', ' ', name)`
followed by `.lower()`.  `\s` in a Python 2 byte-string regex matches the six
ASCII whitespace characters. -/
def isPySpace (c : Char) : Bool :=
  c = ' ' || c = '\t' || c = '\n' || c = '\r' || c = '\x0b' || c = '\x0c'

theorem dropWhile_len_le {α : Type} (p : α → Bool) (l : List α) :
    (l.dropWhile p).length ≤ l.length := by
  induction l with
  | nil => simp [List.dropWhile]
  | cons a l ih =>
    rw [List.dropWhile_cons]
    split
    · exact Nat.le_succ_of_le ih
    · exact Nat.le_refl _

/-- The effect of `re.sub(r'\s{2,}', ' ', s)` on the character list: each
maximal run of two or more whitespace characters is replaced by one space;
a lone whitespace character does not match the pattern and is kept. -/
def collapseWs : List Char → List Char
  | [] => []
  | [c] => [c]
  | c :: d :: rest =>
    if isPySpace c && isPySpace d then
      ' ' :: collapseWs (rest.dropWhile isPySpace)
    else
      c :: collapseWs (d :: rest)
termination_by l => l.length
decreasing_by
  · simp only [List.length_cons]
    have h := dropWhile_len_le isPySpace rest
    omega
  · simp only [List.length_cons]
    omega

/-- Python 2 `str.lower()` on ASCII data. -/
def pyLower (c : Char) : Char := c.toLower

/-- `normalize_name` from the source: collapse runs of two or more whitespace
characters to a single space, then lowercase. -/
def normalize_name (name : String) : String :=
  String.mk ((collapseWs name.data).map pyLower)

/-- Specification-level restatement of the whitespace handling, written by
maximal runs: a maximal whitespace run of length at least two becomes a single
space, any other character (including a lone whitespace character) is kept. -/
def specCollapse : List Char → List Char
  | [] => []
  | c :: rest =>
    if isPySpace c then
      (if (c :: rest.takeWhile isPySpace).length ≥ 2 then [' ']
       else c :: rest.takeWhile isPySpace) ++ specCollapse (rest.dropWhile isPySpace)
    else
      c :: specCollapse rest
termination_by l => l.length
decreasing_by
  · simp only [List.length_cons]
    have h := dropWhile_len_le isPySpace rest
    omega
  · simp only [List.length_cons]
    omega

theorem collapseWs_eq_specCollapse (l : List Char) : collapseWs l = specCollapse l := by
  induction l using collapseWs.induct with
  | case1 => rw [collapseWs, specCollapse]
  | case2 c =>
    rw [collapseWs, specCollapse]
    cases hc : isPySpace c
    · simp [hc, specCollapse]
    · simp [hc, specCollapse]
  | case3 c d rest h ih =>
    rw [collapseWs, specCollapse]
    rw [Bool.and_eq_true] at h
    simp only [h.1, h.2, Bool.and_self, ite_true, List.takeWhile_cons, List.dropWhile_cons,
      List.length_cons]
    rw [if_pos (by omega)]
    simp only [List.singleton_append, List.cons.injEq, true_and]
    exact ih
  | case4 c d rest h ih =>
    rw [collapseWs, specCollapse, if_neg h]
    cases hc : isPySpace c
    · simp only [hc, Bool.false_eq_true, ite_false, List.cons.injEq, true_and]
      exact ih
    · have hd : isPySpace d = false := by
        cases hds : isPySpace d
        · rfl
        · exact absurd (by rw [hc, hds]; rfl) h
      simp only [hc, ite_true, List.takeWhile_cons, List.dropWhile_cons, hd,
        Bool.false_eq_true, ite_false, List.takeWhile_nil, List.length_cons, List.length_nil]
      rw [if_neg (by omega)]
      simp only [List.cons_append, List.nil_append, List.cons.injEq, true_and]
      exact ih

/-- Specification-level normalization: `specCollapse` followed by lowercasing. -/
def specNormalize (name : String) : String :=
  String.mk ((specCollapse name.data).map pyLower)

/-!
## Environment: collaborators outside the examined source file

`parser/processor.py`, `bill/models.py`, `person/models.py` and
`bill/title.py` are not part of the examined source.  Their behavior is
abstracted into an `Env` of deterministic functions.
-/

/-- Modelled from the spec: the collaborator functions the parser calls but
whose definitions live outside the examined source file.
* `parseDatetime` — `Processor.parse_datetime`, a deterministic parse of a
  datetime attribute string (parsed datetimes are represented as strings).
* `reprParseDT` — `repr(Processor.parse_datetime s)` as used for
  `major_actions` entries.
* `getPrimaryBillTitle` — `bill.title.get_primary_bill_title`, per the spec a
  total deterministic function of the titles sequence.
* `billTypeByXmlCode` — `BillType.by_xml_code`, a fixed code table; `none`
  means the code is absent from the table (Python raises a lookup error).
* `billStatusByXmlCode` — `BillStatus.by_xml_code`, likewise.
* `roleAt` — `Person.get_role_at_date`, the role a person held at a date. -/
structure Env where
  parseDatetime : String → String
  reprParseDT : String → String
  getPrimaryBillTitle : List (Option String × Option String × Option String) → Option String
  billTypeByXmlCode : String → Option Int
  billStatusByXmlCode : String → Option Int
  roleAt : Int → String → Option Int

/-- Modelled from the spec: the two subject-taxonomy classification schemes
(`TermType.old` / `TermType.new` in `bill/models.py`), as distinct integer
enum values. -/
def TermType.old : Int := 1

/-- Modelled from the spec: the post-reform classification scheme value. -/
def TermType.new : Int := 2

/-- Modelled from the spec: a persisted `BillTerm` row — identity plus the
`(classification, name)` attributes; terms carry no other attributes. -/
structure TermRow where
  id : Nat
  term_type : Int
  name : String
deriving DecidableEq, Repr

/-- Modelled from the spec: the scalar columns of the `Bill` entity that the
parser populates before the first `save()` (`bill/models.py` is not part of
the examined source).  `major_actions` is kept separately because it is
written by `main` after `process` returns. -/
structure BillData where
  congress : Int
  bill_type : Int
  number : Int
  titles : List (Option String × Option String × Option String)
  title : Option String
  introduced_date : String
  current_status_date : String
  current_status : Int
  sponsor : Option Int
  sponsor_role : Option Int
deriving DecidableEq, Repr

/-- Modelled from the spec: a persisted `Bill` row.  `committees` and `terms`
are many-to-many relations: `save()` writes the scalar columns only, while
assignment to the relation replaces the related set.  `major_actions` is a
scalar (serialized) column, overwritten on every `save()`. -/
structure Bill where
  id : Nat
  data : BillData
  committees : List Int
  terms : List Nat
  major_actions : List (String × Int × String)
deriving DecidableEq, Repr

/-- Modelled from the spec: a persisted `Cosponsor` join row, unique per
`(person, bill)`. -/
structure Cosponsor where
  person : Int
  bill : Nat
  joined : String
  withdrawn : Option String
  role : Option Int
deriving DecidableEq, Repr

/-- Modelled from the spec: a persisted `RelatedBill` row; the spec gives the
rows no independent identity worth preserving across runs, so they are
represented by their three fields. -/
structure RelatedBill where
  bill : Nat
  related_bill : Nat
  relation : Option String
deriving DecidableEq, Repr

/-- The persistent state the bill pipeline reads and writes: the `Bill`,
`Cosponsor` and `RelatedBill` tables it reconciles, plus the read-only
reference tables (person ids for `PERSON_CACHE`, committee code table,
`BillTerm` rows for `TERM_CACHE`), and the id sequence for `Bill` inserts. -/
structure DB where
  bills : List Bill
  cosponsors : List Cosponsor
  relatedbills : List RelatedBill
  persons : List Int
  committeeRows : List (String × Int)
  termRows : List TermRow
  nextBillId : Nat
deriving DecidableEq, Repr

/-!
## XML documents

A bill document, as the parser reads it: attributes are `Option String`
(`elem.get` returns `None` for a missing attribute).
-/

structure XmlCosponsor where
  id : Option String
  joined : Option String
  withdrawn : Option String
deriving DecidableEq, Repr

structure XmlRelated where
  session : Option String
  ty : Option String
  number : Option String
  relation : Option String
deriving DecidableEq, Repr

/-- An element matched by `tree.xpath("actions/*[@state]")`: the `string()`
xpath accessor yields `""` for a missing attribute or empty text. -/
structure XmlAction where
  datetime : String
  state : String
  text : String
deriving DecidableEq, Repr

/-- The root `<bill>` element of a bill document. -/
structure BillNode where
  type_ : Option String
  session : Option String
  number : Option String
  titles : List (Option String × Option String × Option String)
  introduced : List (Option String)
  state : List (Option String × Option String)
  sponsor : List (Option String)
  cosponsors : List XmlCosponsor
  committees : List (Option String)
  subjects : List (Option String)
  relatedbills : List XmlRelated
  actions : List XmlAction
deriving DecidableEq, Repr

/-!
## The bill pipeline (`BillProcessor` and helpers)
-/

/-- A decimal digit's value. -/
def digitVal (c : Char) : Option Nat :=
  if '0' ≤ c ∧ c ≤ '9' then some (c.toNat - '0'.toNat) else none

/-- Accumulate decimal digits; `none` on a non-digit. -/
def digitsToNat : List Char → Nat → Option Nat
  | [], acc => some acc
  | c :: rest, acc =>
    match digitVal c with
    | none => none
    | some d => digitsToNat rest (acc * 10 + d)

/-- Python `int(s)` on a string: an optional minus sign followed by one or
more decimal digits; anything else raises `ValueError` (`none` here). -/
def pyToInt (s : String) : Option Int :=
  match s.data with
  | [] => none
  | '-' :: rest =>
    match rest with
    | [] => none
    | _ => (digitsToNat rest 0).map (fun n => -(n : Int))
  | l => (digitsToNat l 0).map (fun n => (n : Int))

/-- Python `int(s)` as an exception-raising computation. -/
def toIntE (s : String) : Except PyErr Int :=
  match pyToInt s with
  | some i => .ok i
  | none => .error .valueError

/-- Modelled from the spec: the required-attribute check of the `Processor`
base class (`parser/processor.py` is not part of the examined source): a
required attribute whose value is `None` raises a mapping error naming it. -/
def requireAttr (v : Option String) (attr : String) : Except PyErr String :=
  match v with
  | some s => .ok s
  | none => .error (.missingAttr attr)

/-- `get_person` (lines 29-34): `int(pk)` — `TypeError` on `None`,
`ValueError` on a non-numeric string — then a `PERSON_CACHE` dictionary
lookup, which raises `KeyError` when the person is absent. -/
def get_person (persons : List Int) (pk : Option String) : Except PyErr Int :=
  match pk with
  | none => .error .typeError
  | some s =>
    match pyToInt s with
    | none => .error .valueError
    | some p => if p ∈ persons then .ok p else .error .keyError

/-- The generic attribute pass of `BillProcessor` (attributes `type`,
`session`, `number`, all required; handlers `BillType.by_xml_code`, `int`,
`int`; fields `bill_type`, `congress`, `number`). -/
def mapBillAttributes (env : Env) (node : BillNode) : Except PyErr (Int × Int × Int) := do
  let t ← requireAttr node.type_ "type"
  let bt ← match env.billTypeByXmlCode t with
    | some v => Except.ok v
    | none => Except.error PyErr.keyError
  let s ← requireAttr node.session "session"
  let congress ← toIntE s
  let n ← requireAttr node.number "number"
  let num ← toIntE n
  return (bt, congress, num)

/-- `process_introduced` (lines 85-87): `node.xpath('./introduced')[0]` raises
`IndexError` when the element is absent; `parse_datetime(None)` raises a
`TypeError` when the `datetime` attribute is missing. -/
def processIntroduced (env : Env) (node : BillNode) : Except PyErr String :=
  match node.introduced.head? with
  | none => .error .indexError
  | some none => .error .typeError
  | some (some s) => .ok (env.parseDatetime s)

/-- `process_current_status` (lines 89-92): the `./state` element is required
(`IndexError` if absent); its `datetime` attribute is parsed, and its text is
resolved through `BillStatus.by_xml_code` (a lookup error on `None` or an
unknown code). -/
def processCurrentStatus (env : Env) (node : BillNode) : Except PyErr (String × Int) :=
  match node.state.head? with
  | none => .error .indexError
  | some (dt, txt) =>
    match dt with
    | none => .error .typeError
    | some d =>
      match txt with
      | none => .error .keyError
      | some t =>
        match env.billStatusByXmlCode t with
        | none => .error .keyError
        | some code => .ok (env.parseDatetime d, code)

/-- `process_sponsor` (lines 102-109): the `try` catches `IndexError` (no
sponsor node) and `TypeError` (no `id` attribute), setting sponsor to null;
any other exception of `get_person` — `ValueError` on a malformed id,
`KeyError` on an unresolvable one — propagates. -/
def processSponsor (env : Env) (persons : List Int) (sponsorIds : List (Option String))
    (introduced : String) : Except PyErr (Option Int × Option Int) :=
  match sponsorIds.head? with
  | none => .ok (none, none)
  | some pk =>
    match pk with
    | none => .ok (none, none)
    | some s =>
      match pyToInt s with
      | none => .error .valueError
      | some p =>
        if p ∈ persons then .ok (some p, env.roleAt p introduced)
        else .error .keyError

/-- The sponsor step agrees with `get_person` on a present id: it absorbs the
`TypeError` of a missing id and propagates every other failure. -/
theorem processSponsor_via_get_person (env : Env) (persons : List Int) (s : String)
    (intro : String) :
    processSponsor env persons [some s] intro =
      match get_person persons (some s) with
      | .ok p => .ok (some p, env.roleAt p intro)
      | .error e => .error e := by
  simp only [processSponsor, get_person, List.head?]
  cases pyToInt s with
  | none => rfl
  | some p =>
    by_cases hp : p ∈ persons
    · simp [hp]
    · simp [hp]

/-- A committee lookup, `Committee.objects.get(code=...)`: `None` never
matches a row; no row raises `DoesNotExist` (caught and logged by the
caller); several rows would raise `MultipleObjectsReturned`. -/
def comLookup (rows : List (String × Int)) (code : Option String) :
    Except PyErr (Option Int) :=
  match code with
  | none => .ok none
  | some s =>
    match rows.filter (fun rc => rc.1 = s) with
    | [] => .ok none
    | [rc] => .ok (some rc.2)
    | _ => .error .multipleObjectsReturned

/-- The loop body of `process_committees` (lines 141-151): blank codes are
skipped silently, unknown codes are logged and dropped. -/
def comLoop (rows : List (String × Int)) :
    List (Option String) → List Int → List String → Except PyErr (List Int × List String)
  | [], acc, logs => .ok (acc, logs)
  | code :: rest, acc, logs =>
    if code = some "" then comLoop rows rest acc logs
    else
      match comLookup rows code with
      | .error e => .error e
      | .ok none =>
        comLoop rows rest acc
          (logs ++ ["Could not find committee " ++ (match code with | some s => s | none => "None")])
      | .ok (some cid) => comLoop rows rest (acc ++ [cid]) logs

/-- The `TERM_CACHE` lookup of `get_term` (lines 44-49): the cache is a
dictionary built over all `BillTerm` rows keyed by
`(term_type, normalize_name(name))`, so a later row overwrites an earlier one
with the same key; a missing key raises `KeyError` (caught and logged by
`process_terms`). -/
def termLookup (rows : List TermRow) (k : Int × String) : Option Nat :=
  rows.foldl (fun acc t => if t.term_type = k.1 ∧ normalize_name t.name = k.2 then some t.id else acc) none

/-- The loop body of `process_terms` (lines 153-161): a missing `name`
attribute makes `normalize_name(None)` raise a `TypeError`; an unresolvable
name is logged and dropped.  The classification scheme is selected by the
congress-number threshold in `get_term`. -/
def termLoop (termRows : List TermRow) (congress : Int) :
    List (Option String) → List Nat → List String → Except PyErr (List Nat × List String)
  | [], acc, logs => .ok (acc, logs)
  | name :: rest, acc, logs =>
    match name with
    | none => .error .typeError
    | some nm =>
      match termLookup termRows
          ((if congress ≥ 111 then TermType.new else TermType.old), normalize_name nm) with
      | some tid => termLoop termRows congress rest (acc ++ [tid]) logs
      | none =>
        termLoop termRows congress rest acc
          (logs ++ ["Could not find term [name: " ++ nm ++ "]"])

/-- Replace the column/relation values of the bill row with id `i`. -/
def updateBill (bills : List Bill) (i : Nat) (f : Bill → Bill) : List Bill :=
  bills.map (fun b => if b.id = i then f b else b)

/-- `Bill.objects.get(congress=..., bill_type=..., number=...)` by natural
key: no row → `DoesNotExist` (represented as `none`), several rows →
`MultipleObjectsReturned`. -/
def lookupBillByKey (bills : List Bill) (c bt n : Int) : Except PyErr (Option Bill) :=
  match bills.filter (fun b => b.data.congress = c ∧ b.data.bill_type = bt ∧ b.data.number = n) with
  | [] => .ok none
  | [b] => .ok (some b)
  | _ => .error .multipleObjectsReturned

/-- The identity-resolution-and-save step (lines 72-78): adopt the id of an
existing bill with the same natural key, then `save()` — an update of the
scalar columns when the id exists (many-to-many relations untouched), an
insert with a fresh id otherwise.  Returns the new table, the next free id
and the id of the saved bill. -/
def saveBill (bills : List Bill) (next : Nat) (d : BillData) :
    Except PyErr (List Bill × Nat × Nat) := do
  let ex ← lookupBillByKey bills d.congress d.bill_type d.number
  match ex with
  | some b =>
    .ok (bills.map (fun x => if x.id = b.id then
          { id := b.id, data := d, committees := x.committees, terms := x.terms,
            major_actions := [] } else x), next, b.id)
  | none =>
    .ok (bills ++
      [{ id := next, data := d, committees := [], terms := [], major_actions := [] }],
      next + 1, next)

/-- One iteration of the `process_consponsors` loop (lines 111-133).  The
`except IndexError` around `get_person` is dead code — `get_person` raises
`KeyError`, `TypeError` or `ValueError`, never `IndexError` — so every
resolution failure propagates.  On success: parse `joined`; `withdrawn` is
parsed only when the attribute is present and non-empty; `get_or_create` on
`(person, bill)`; when the row existed and `joined`/`withdrawn` differ from
the document, exactly those two fields are updated in place. -/
def cosStep (env : Env) (persons : List Int) (bid : Nat) (cs : List Cosponsor)
    (sn : XmlCosponsor) : Except PyErr (List Cosponsor) := do
  let p ← get_person persons sn.id
  let joined ← match sn.joined with
    | none => Except.error PyErr.typeError
    | some s => Except.ok (env.parseDatetime s)
  let withdrawn := match sn.withdrawn with
    | none => none
    | some s => if s = "" then none else some (env.parseDatetime s)
  match cs.filter (fun c => c.person = p ∧ c.bill = bid) with
  | [] =>
    .ok (cs ++
      [{ person := p, bill := bid, joined := joined, withdrawn := withdrawn,
         role := env.roleAt p joined }])
  | [ob] =>
    if ob.joined ≠ joined ∨ ob.withdrawn ≠ withdrawn then
      .ok (cs.map (fun c => if c.person = p ∧ c.bill = bid then
            { c with joined := joined, withdrawn := withdrawn } else c))
    else .ok cs
  | _ => .error .multipleObjectsReturned

/-- `process_consponsors` (lines 111-133) over the cosponsor elements. -/
def processCosponsors (env : Env) (persons : List Int) (bid : Nat) :
    List XmlCosponsor → List Cosponsor → Except PyErr (List Cosponsor)
  | [], cs => .ok cs
  | sn :: rest, cs =>
    match cosStep env persons bid cs sn with
    | .error e => .error e
    | .ok cs1 => processCosponsors env persons bid rest cs1

/-- Resolution of one related-bill reference (lines 165-170).  Python
evaluates the query's arguments first: `BillType.by_xml_code` raises a lookup
error on a missing or unknown `type`, `int(...)` raises on a missing or
malformed `number`; those propagate (the `try` only catches `DoesNotExist`).
The `congress` argument is the raw `session` string, coerced by the ORM: a
missing attribute matches no row (`DoesNotExist`, caught → skip), a
non-numeric one fails the coercion. -/
def relResolve (env : Env) (bills : List Bill) (bid : Nat) (r : XmlRelated) :
    Except PyErr (Option RelatedBill) := do
  let tyStr ← match r.ty with
    | some s => Except.ok s
    | none => Except.error PyErr.keyError
  let bt ← match env.billTypeByXmlCode tyStr with
    | some v => Except.ok v
    | none => Except.error PyErr.keyError
  let num ← match r.number with
    | none => Except.error PyErr.typeError
    | some s => toIntE s
  match r.session with
  | none => .ok none
  | some s =>
    match pyToInt s with
    | none => .error .valueError
    | some c =>
      match bills.filter (fun b => b.data.congress = c ∧ b.data.bill_type = bt ∧ b.data.number = num) with
      | [] => .ok none
      | [b] => .ok (some { bill := bid, related_bill := b.id, relation := r.relation })
      | _ => .error .multipleObjectsReturned

/-- The creation loop of `process_relatedbills`: unresolvable references are
skipped (without logging), resolvable ones each create one row. -/
def relLoop (env : Env) (bills : List Bill) (bid : Nat) :
    List XmlRelated → List RelatedBill → List String → Except PyErr (List RelatedBill × List String)
  | [], acc, logs => .ok (acc, logs)
  | r :: rest, acc, logs =>
    match relResolve env bills bid r with
    | .error e => .error e
    | .ok none => relLoop env bills bid rest acc logs
    | .ok (some row) => relLoop env bills bid rest (acc ++ [row]) logs

/-- `process_relatedbills` (lines 163-170): delete every `RelatedBill` row of
this bill, then recreate one row per resolvable reference of the current
document. -/
def processRelatedbills (env : Env) (bills : List Bill) (bid : Nat)
    (refs : List XmlRelated) (rbs : List RelatedBill) (logs : List String) :
    Except PyErr (List RelatedBill × List String) :=
  relLoop env bills bid refs (rbs.filter (fun x => x.bill ≠ bid)) logs

/-- The result of `BillProcessor.process`: the database after the
reconciliation, the id of the reconciled bill, and the log lines emitted. -/
structure PRes where
  db : DB
  bid : Nat
  logs : List String
deriving DecidableEq, Repr

/-- `BillProcessor.process` (lines 65-83): generic attribute mapping, titles,
introduced date, sponsor, current status; identity resolution and `save()`;
then the relationship collections — committees, terms, cosponsors, related
bills — against the saved record. -/
def processBill (env : Env) (db : DB) (node : BillNode) : Except PyErr PRes :=
  match mapBillAttributes env node with
  | .error e => .error e
  | .ok (bt, congress, num) =>
    let titles := node.titles
    let title := env.getPrimaryBillTitle titles
    match processIntroduced env node with
    | .error e => .error e
    | .ok intro =>
      match processSponsor env db.persons node.sponsor intro with
      | .error e => .error e
      | .ok (sp, spRole) =>
        match processCurrentStatus env node with
        | .error e => .error e
        | .ok (stDate, stCode) =>
          let d : BillData :=
            { congress := congress, bill_type := bt, number := num, titles := titles,
              title := title, introduced_date := intro, current_status_date := stDate,
              current_status := stCode, sponsor := sp, sponsor_role := spRole }
          match saveBill db.bills db.nextBillId d with
          | .error e => .error e
          | .ok (bills1, next1, bid) =>
            match comLoop db.committeeRows node.committees [] [] with
            | .error e => .error e
            | .ok (comlist, logs1) =>
              let bills2 := updateBill bills1 bid (fun b => { b with committees := comlist })
              match termLoop db.termRows congress node.subjects [] logs1 with
              | .error e => .error e
              | .ok (termlist, logs2) =>
                let bills3 := updateBill bills2 bid (fun b => { b with terms := termlist })
                match processCosponsors env db.persons bid node.cosponsors db.cosponsors with
                | .error e => .error e
                | .ok cos1 =>
                  match processRelatedbills env bills3 bid node.relatedbills db.relatedbills logs2 with
                  | .error e => .error e
                  | .ok (rbs1, logs3) =>
                    .ok { db := { bills := bills3, cosponsors := cos1, relatedbills := rbs1,
                                  persons := db.persons, committeeRows := db.committeeRows,
                                  termRows := db.termRows, nextBillId := next1 },
                          bid := bid, logs := logs3 }

/-!
## The taxonomy phase of `main` (lines 179-260)
-/

/-- A `top-term` node of a taxonomy file: its `value` attribute and the
`value` attributes of its `term` children. -/
structure TopTermNode where
  value : Option String
  children : List (Option String)
deriving DecidableEq, Repr

/-- The term tables: `BillTerm` rows, the parent→subterm edges, and the id
sequence for inserts. -/
structure TermSt where
  terms : List TermRow
  edges : List (Nat × Nat)
  nextTermId : Nat
deriving DecidableEq, Repr

/-- The `existing_terms` dictionary, keyed by `(int(term_type), name)` —
the raw name, as in line 187 of the source. -/
abbrev ExTerms : Type := List ((Int × String) × TermRow)

/-- Dictionary assignment `existing_terms[k] = v`: overwrite or append. -/
def exInsert (m : ExTerms) (k : Int × String) (v : TermRow) : ExTerms :=
  if (List.any m (fun e => e.1 = k)) then
    List.map (fun e => if e.1 = k then (k, v) else e) m
  else m ++ [(k, v)]

/-- Dictionary lookup (the `try`/`except` around it is the caller's). -/
def exLookup (m : ExTerms) (k : Int × String) : Option TermRow :=
  (List.find? (fun e => e.1 = k) m).map (fun e => e.2)

/-- Lines 185-187: snapshot all existing terms into `existing_terms`. -/
def snapshotTerms (rows : List TermRow) : ExTerms :=
  rows.foldl (fun m t => exInsert m (t.term_type, t.name) t) []

/-- Modelled from the spec: `BillTerm.save()` on a new object — the data
model's uniqueness invariant on `(classification, name)` is enforced by the
persistence layer (the source's `except IntegrityError` around subterm saves
evidences the constraint), so saving a second row with the key of an
existing one raises `IntegrityError`; otherwise the row is inserted with a
fresh id. -/
def saveTermRow (st : TermSt) (ttype : Int) (nm : String) : Except PyErr (TermSt × TermRow) :=
  if st.terms.any (fun t => t.term_type = ttype ∧ t.name = nm) then .error .integrityError
  else
    let r : TermRow := { id := st.nextTermId, term_type := ttype, name := nm }
    .ok ({ st with terms := st.terms ++ [r], nextTermId := st.nextTermId + 1 }, r)

/-- `term.subterms.add(...)`: a many-to-many add, a no-op on a duplicate. -/
def addEdge (es : List (Nat × Nat)) (a b : Nat) : List (Nat × Nat) :=
  if (a, b) ∈ es then es else es ++ [(a, b)]

/-- The subterm loop shared by the old-scheme (lines 204-221) and new-scheme
(lines 238-255) passes: map the `value` attribute (required); reuse an
existing entry, marking it seen and adding the ownership edge; otherwise
save (an `IntegrityError` is caught here: the duplicate is logged and
skipped), add the edge, cache the new row and mark it seen. -/
def subtermLoop (ttype : Int) (parentId : Nat) :
    List (Option String) → ExTerms → List Nat → TermSt → Except PyErr (ExTerms × List Nat × TermSt)
  | [], ex, parsed, st => .ok (ex, parsed, st)
  | v :: rest, ex, parsed, st =>
    match v with
    | none => .error (.missingAttr "value")
    | some nm =>
      match exLookup ex (ttype, nm) with
      | some r =>
        subtermLoop ttype parentId rest ex (parsed ++ [r.id])
          { st with edges := addEdge st.edges parentId r.id }
      | none =>
        match saveTermRow st ttype nm with
        | .error _ => subtermLoop ttype parentId rest ex parsed st
        | .ok (st1, r) =>
          subtermLoop ttype parentId rest (exInsert ex (ttype, nm) r) (parsed ++ [r.id])
            { st1 with edges := addEdge st1.edges parentId r.id }

/-- The top-term loop (lines 192-221 for the old scheme, 226-255 for the
new): reuse an existing entry — marking it seen — or save a new one (this
save is *not* wrapped in an `except IntegrityError`) and clear its subterm
edges; note that on the create path the new term is added neither to
`existing_terms` nor to `terms_parsed`. -/
def topTermLoop (ttype : Int) :
    List TopTermNode → ExTerms → List Nat → TermSt → Except PyErr (ExTerms × List Nat × TermSt)
  | [], ex, parsed, st => .ok (ex, parsed, st)
  | node :: rest, ex, parsed, st =>
    match node.value with
    | none => .error (.missingAttr "value")
    | some nm =>
      match exLookup ex (ttype, nm) with
      | some r =>
        match subtermLoop ttype r.id node.children ex (parsed ++ [r.id]) st with
        | .error e => .error e
        | .ok (ex1, parsed1, st1) => topTermLoop ttype rest ex1 parsed1 st1
      | none =>
        match saveTermRow st ttype nm with
        | .error e => .error e
        | .ok (st1, r) =>
          let st2 := { st1 with edges := st1.edges.filter (fun e => e.1 ≠ r.id) }
          match subtermLoop ttype r.id node.children ex parsed st2 with
          | .error e => .error e
          | .ok (ex1, parsed1, st3) => topTermLoop ttype rest ex1 parsed1 st3

/-- The new-scheme pass iterates the top-term loop over two files
(lines 224-226). -/
def termFiles (ttype : Int) :
    List (List TopTermNode) → ExTerms → List Nat → TermSt → Except PyErr (ExTerms × List Nat × TermSt)
  | [], ex, parsed, st => .ok (ex, parsed, st)
  | f :: rest, ex, parsed, st =>
    match topTermLoop ttype f ex parsed st with
    | .error e => .error e
    | .ok (ex1, parsed1, st1) => termFiles ttype rest ex1 parsed1 st1

/-- Lines 257-260: delete every term of `existing_terms` not marked seen
(`term.delete()` cascades to the ownership edges). -/
def pruneTerms (ex : ExTerms) (parsed : List Nat) (st : TermSt) : TermSt :=
  let dead := (ex.map (fun e => e.2.id)).filter (fun i => ¬ i ∈ parsed)
  { st with terms := st.terms.filter (fun t => ¬ t.id ∈ dead),
            edges := st.edges.filter (fun e => ¬ e.1 ∈ dead ∧ ¬ e.2 ∈ dead) }

/-- The taxonomy phase of `main`: snapshot, the old-scheme file, the
new-scheme files, then the prune pass. -/
def termMain (oldFile : List TopTermNode) (newFiles : List (List TopTermNode))
    (st : TermSt) : Except PyErr TermSt :=
  let ex0 := snapshotTerms st.terms
  match topTermLoop TermType.old oldFile ex0 [] st with
  | .error e => .error e
  | .ok (ex1, parsed1, st1) =>
    match termFiles TermType.new newFiles ex1 parsed1 st1 with
    | .error e => .error e
    | .ok (ex2, parsed2, st2) => .ok (pruneTerms ex2 parsed2 st2)

/-!
## The bill loop of `main` (lines 262-331)
-/

/-- A tracked file path: the primary bill document or its secondary
full-text file, identified by the path components the source's regular
expression extracts. -/
inductive PathK where
  | bill (congress ty num : String)
  | text (congress ty num : String)
deriving DecidableEq, Repr

/-- The run flags of `main` that the bill loop reads. -/
structure Options where
  force : Bool
  disable_indexing : Bool
  disable_events : Bool
deriving DecidableEq, Repr

/-- One source file as the loop sees it: the path components
(`/(\d+)/bills/([a-z]+)(\d+)\.xml`), the file's current signature, the
parsed document, and the secondary full-text file's presence and
signature. -/
structure FileEntry where
  congressStr : String
  typeStr : String
  numberStr : String
  sig : Nat
  doc : BillNode
  textExists : Bool
  textSig : Nat
deriving DecidableEq, Repr

/-- The state the bill loop threads: the database, the `File` change-tracker
records, `seen_bill_ids`, and the ids handed to the index and event
collaborators. -/
structure St where
  db : DB
  tracker : List (PathK × Nat)
  seen : List Nat
  indexed : List Nat
  events : List Nat
  logs : List String
deriving DecidableEq, Repr

/-- `File.objects.is_changed(path)`: true when no record exists for the path
or the stored signature differs from the current one. -/
def fileChanged (tracker : List (PathK × Nat)) (k : PathK) (sig : Nat) : Bool :=
  match tracker.find? (fun e => e.1 = k) with
  | none => true
  | some e => e.2 ≠ sig

/-- `File.objects.save_file(path)`: record the current signature. -/
def saveFile (tracker : List (PathK × Nat)) (k : PathK) (sig : Nat) : List (PathK × Nat) :=
  if tracker.any (fun e => e.1 = k) then
    tracker.map (fun e => if e.1 = k then (k, sig) else e)
  else tracker ++ [(k, sig)]

/-- Lines 320-322: one `major_actions` entry per action element carrying a
`state` attribute — `(repr(parse_datetime(@datetime)), by_xml_code(@state),
string(text))`; an unknown state code raises a lookup error. -/
def actionsOf (env : Env) (acts : List XmlAction) :
    Except PyErr (List (String × Int × String)) :=
  match acts with
  | [] => .ok []
  | a :: rest =>
    match env.billStatusByXmlCode a.state with
    | none => .error .keyError
    | some code =>
      match actionsOf env rest with
      | .error e => .error e
      | .ok tail => .ok ((env.reprParseDT a.datetime, code, a.text) :: tail)

/-- The full parse-and-reconcile path for one file (lines 310-331):
`BillProcessor.process`, record the bill id as seen, extract and save
`major_actions`, hand the bill to the index and event collaborators, and
only then mark the file seen in the change tracker. -/
def fullParse (env : Env) (opts : Options) (st : St) (f : FileEntry) : Except PyErr St :=
  match processBill env st.db f.doc with
  | .error e => .error e
  | .ok r =>
    let seen1 := st.seen ++ [r.bid]
    match actionsOf env f.doc.actions with
    | .error e => .error e
    | .ok acts =>
      let bills1 := updateBill r.db.bills r.bid (fun b => { b with major_actions := acts })
      let db1 := { r.db with bills := bills1 }
      let indexed1 := if opts.disable_indexing then st.indexed else st.indexed ++ [r.bid]
      let events1 := if opts.disable_events then st.events else st.events ++ [r.bid]
      let tracker1 := saveFile st.tracker (PathK.bill f.congressStr f.typeStr f.numberStr) f.sig
      .ok { db := db1, tracker := tracker1, seen := seen1, indexed := indexed1,
            events := events1, logs := st.logs ++ r.logs }

/-- One iteration of the bill loop (lines 284-331).  When the tracker
reports the file unchanged and reprocessing is not forced, the natural key
is derived from the path and the bill is looked up; if it exists the
document is skipped (with only the secondary full-text freshness check);
if it does not (`Bill.DoesNotExist`), the skip path falls through to the
full parse. -/
def handleFile (env : Env) (opts : Options) (st : St) (f : FileEntry) : Except PyErr St :=
  if fileChanged st.tracker (PathK.bill f.congressStr f.typeStr f.numberStr) f.sig = false
      ∧ opts.force = false then
    match env.billTypeByXmlCode f.typeStr with
    | none => .error .keyError
    | some bt =>
      match pyToInt f.congressStr with
      | none => .error .valueError
      | some c =>
        match pyToInt f.numberStr with
        | none => .error .valueError
        | some n =>
          match lookupBillByKey st.db.bills c bt n with
          | .error e => .error e
          | .ok (some b) =>
            let seen1 := st.seen ++ [b.id]
            if opts.disable_indexing = false ∧ opts.disable_events = false
                ∧ f.textExists
                ∧ fileChanged st.tracker (PathK.text f.congressStr f.typeStr f.numberStr) f.textSig then
              let tracker1 := saveFile st.tracker
                (PathK.text f.congressStr f.typeStr f.numberStr) f.textSig
              let indexed1 := st.indexed ++ [b.id]
              let events1 := st.events ++ [b.id]
              .ok { st with seen := seen1, indexed := indexed1, events := events1, tracker := tracker1 }
            else .ok { st with seen := seen1 }
          | .ok none => fullParse env opts st f
  else fullParse env opts st f

/-- The bill loop over the file list.  An exception escaping one file's
processing is uncaught in `main`: the loop stops and the exception
propagates, leaving the state as it was before the failing file. -/
def processFiles (env : Env) (opts : Options) : St → List FileEntry → St × Option PyErr
  | st, [] => (st, none)
  | st, f :: rest =>
    match handleFile env opts st f with
    | .ok st1 => processFiles env opts st1 rest
    | .error e => (st, some e)

/-!
## Shared test fixtures

A concrete environment instantiating the abstract collaborators, used by the
witness theorems.
-/

def testEnv : Env :=
  { parseDatetime := fun s => s,
    reprParseDT := fun s => s,
    getPrimaryBillTitle := fun ts => ts.head?.bind (fun t => t.2.2),
    billTypeByXmlCode := fun s => if s = "h" then some 1 else if s = "s" then some 2 else none,
    billStatusByXmlCode := fun s =>
      if s = "INTRODUCED" then some 10 else if s = "REFERRED" then some 11 else none,
    roleAt := fun _ _ => some 7 }

/-!
## C8 — name normalization
-/

/-- C8, counterexample: the claim says every whitespace run — in particular a
lone tab — becomes a single space.  The source's pattern `\s{2,}` leaves a
lone tab untouched: `normalize_name "a\tB"` is `"a\tb"`, not `"a b"`. -/
theorem c8_counterexample :
    normalize_name "a\tB" = "a\tb" ∧ normalize_name "a\tB" ≠ "a b" := by
  have h : normalize_name "a\tB" = "a\tb" := by
    show String.mk ((collapseWs ['a', '\t', 'B']).map pyLower) = "a\tb"
    rw [collapseWs]
    rw [if_neg (by decide)]
    rw [collapseWs]
    rw [if_neg (by decide)]
    rw [collapseWs]
    decide
  exact ⟨h, by rw [h]; decide⟩

/-- C8, amended: `normalize_name` lowercases and collapses every run of *two
or more* whitespace characters to a single space; a lone whitespace
character (such as a single tab) is kept as-is.  Stated against the
run-structured specification function. -/
theorem c8_normalize_name_spec (s : String) : normalize_name s = specNormalize s := by
  unfold normalize_name specNormalize
  rw [collapseWs_eq_specCollapse]

/-!
## C6 — top-term dedup across taxonomy files
-/

/-- A taxonomy file whose single top-term is named `Agriculture`. -/
def agNode : TopTermNode := { value := some "Agriculture", children := [] }

/-- C6, evaluation at the failing input: a fresh pass over two new-scheme
taxonomy files that each define the top-term `Agriculture`.  The create path
for top terms adds the new row neither to `existing_terms` nor to
`terms_parsed` (unlike the subterm path, which does both), so the second
file misses the cache, attempts a second save of the same
`(classification, name)`, and the resulting `IntegrityError` — uncaught for
top terms — aborts the run instead of reusing the first row. -/
theorem c6_duplicate_top_term_aborts :
    termMain [] [[agNode], [agNode]] { terms := [], edges := [], nextTermId := 0 }
      = .error .integrityError := rfl

/-!
## C7 — term reuse keyed by raw, not normalized, name
-/

/-- C7, counterexample: `existing_terms` is keyed by the *raw* `term.name`
(line 187), not the normalized name.  With an existing new-scheme term
`Agriculture` (id 5), a taxonomy file defining a top-term `agriculture` —
the same name up to letter case — misses the index: a brand-new term (id 6)
is created, and the original, never marked seen, is deleted by the prune
pass.  The two spellings do not resolve to the same persisted term. -/
theorem c7_counterexample :
    termMain [] [[{ value := some "agriculture", children := [] }]]
        { terms := [{ id := 5, term_type := 2, name := "Agriculture" }], edges := [],
          nextTermId := 6 }
      = .ok { terms := [{ id := 6, term_type := 2, name := "agriculture" }], edges := [],
              nextTermId := 7 } := rfl

/-- C7, amended: the snapshot index is keyed by `(classification, raw name)`;
a term node reuses an existing entry exactly when its name matches the
stored name character-for-character (and is then marked seen, surviving the
prune pass with its identity and the table unchanged). -/
theorem c7_exact_name_reuse (r : TermRow) (nm : String)
    (h1 : r.term_type = TermType.new) (h2 : r.name = nm) :
    termMain [] [[{ value := some nm, children := [] }]]
        { terms := [r], edges := [], nextTermId := r.id + 1 }
      = .ok { terms := [r], edges := [], nextTermId := r.id + 1 } := by
  subst h2
  unfold termMain snapshotTerms topTermLoop
  simp only [List.foldl_cons, List.foldl_nil, exInsert, List.any_nil, Bool.false_eq_true,
    ite_false, List.nil_append]
  rw [h1]
  simp [termFiles, topTermLoop, subtermLoop, exLookup, pruneTerms]

theorem c7_exact_name_reuse_witness :
    termMain [] [[{ value := some "Agriculture", children := [] }]]
        { terms := [{ id := 5, term_type := 2, name := "Agriculture" }], edges := [],
          nextTermId := 6 }
      = .ok { terms := [{ id := 5, term_type := 2, name := "Agriculture" }], edges := [],
              nextTermId := 6 } :=
  c7_exact_name_reuse { id := 5, term_type := 2, name := "Agriculture" } "Agriculture" rfl rfl

/-!
## C3 — sponsor resolution
-/

/-- The `except IndexError` branches of the source can never fire around a
`get_person` call on an attribute value: `get_person` raises `KeyError`,
`TypeError` or `ValueError`, never `IndexError`. -/
theorem get_person_never_indexError (persons : List Int) (pk : Option String) :
    get_person persons pk ≠ .error .indexError := by
  unfold get_person
  cases pk with
  | none => simp
  | some s =>
    cases h : pyToInt s with
    | none => simp [h]
    | some p => by_cases hp : p ∈ persons <;> simp [h, hp]

/-- C3, counterexample: the claim says an id attribute that is present but
unresolvable against the person cache makes the sponsor null with no error.
In the source, `get_person` raises `KeyError` for an id absent from
`PERSON_CACHE`, and `process_sponsor` catches only `IndexError` and
`TypeError` — so with an empty person cache and a sponsor id `400001` the
document fails instead of getting a null sponsor. -/
theorem c3_counterexample :
    processSponsor testEnv [] [some "400001"] "2009-01-06" = .error .keyError := rfl

/-- C3, amended: an absent sponsor node or a missing id attribute makes the
sponsor (and sponsor role) null without error; an id that parses as an
integer but is not in the person cache raises `KeyError`, failing the
document. -/
theorem c3_sponsor_resolution (env : Env) (persons : List Int) (intro : String) :
    processSponsor env persons [] intro = .ok (none, none) ∧
    processSponsor env persons [none] intro = .ok (none, none) ∧
    (∀ s p, pyToInt s = some p → ¬ p ∈ persons →
      processSponsor env persons [some s] intro = .error .keyError) := by
  refine ⟨rfl, rfl, ?_⟩
  intro s p hs hp
  simp [processSponsor, hs, hp]

theorem c3_sponsor_resolution_witness :
    processSponsor testEnv [] [] "2009-01-06" = .ok (none, none) ∧
    processSponsor testEnv [] [none] "2009-01-06" = .ok (none, none) ∧
    processSponsor testEnv [] [some "400001"] "2009-01-06" = .error .keyError := by
  obtain ⟨h1, h2, h3⟩ := c3_sponsor_resolution testEnv [] "2009-01-06"
  exact ⟨h1, h2, h3 "400001" 400001 (by decide) (by decide)⟩

/-!
## C4 — cosponsor resolution
-/

/-- C4, evaluation at the failing input: a single cosponsor reference whose
id `999` is absent from the person cache.  The claim (and the spec) say the
reference is silently dropped and processing continues; in the source the
loop's `except IndexError` is dead code (see
`get_person_never_indexError`), so the `KeyError` escapes
`process_consponsors` and fails the document. -/
theorem c4_unresolvable_cosponsor_raises :
    processCosponsors testEnv [] 0
        [{ id := some "999", joined := some "2009-02-03", withdrawn := none }] []
      = .error .keyError := rfl

/-!
## C9 — RelatedBill full replace
-/

/-- Specification view of one related-bill reference: the row it creates, or
`none` when it is skipped (or would fail the document). -/
def relOpt (env : Env) (bills : List Bill) (bid : Nat) (r : XmlRelated) : Option RelatedBill :=
  match relResolve env bills bid r with
  | .ok o => o
  | .error _ => none

theorem relResolve_bill_eq (env : Env) (bills : List Bill) (bid : Nat) (r : XmlRelated)
    (row : RelatedBill) (h : relResolve env bills bid r = .ok (some row)) : row.bill = bid := by
  unfold relResolve at h
  simp only [bind, Except.bind] at h
  repeat
    first
    | (cases h; rfl)
    | (cases h)
    | (simp at h)
    | split at h

theorem relLoop_ok (env : Env) (bills : List Bill) (bid : Nat) (refs : List XmlRelated)
    (acc : List RelatedBill) (logs : List String) (out : List RelatedBill) (lg : List String)
    (h : relLoop env bills bid refs acc logs = .ok (out, lg)) :
    out = acc ++ refs.filterMap (relOpt env bills bid) ∧ lg = logs := by
  induction refs generalizing acc with
  | nil =>
    unfold relLoop at h
    simp only [Except.ok.injEq, Prod.mk.injEq] at h
    simp [← h.1, ← h.2]
  | cons r rest ih =>
    unfold relLoop at h
    cases hr : relResolve env bills bid r with
    | error e => rw [hr] at h; cases h
    | ok o =>
      rw [hr] at h
      cases o with
      | none =>
        have hres := ih acc h
        simp only [List.filterMap_cons, relOpt, hr]
        exact hres
      | some row =>
        have hres := ih (acc ++ [row]) h
        simp only [List.filterMap_cons, relOpt, hr]
        refine ⟨?_, hres.2⟩
        rw [hres.1, List.append_assoc]
        rfl

/-- C9: on every reconciliation, all existing `RelatedBill` rows of the bill
are deleted first (rows of other bills are untouched); then exactly one row
is created per related-bill reference of the current document that resolves
to an existing bill, unresolvable references being skipped without any log
line — so the resulting set for the bill equals the resolvable references
of the current document. -/
theorem c9_relatedbills_full_replace (env : Env) (bills : List Bill) (bid : Nat)
    (refs : List XmlRelated) (rbs : List RelatedBill) (logs : List String)
    (rbs1 : List RelatedBill) (lg1 : List String)
    (h : processRelatedbills env bills bid refs rbs logs = .ok (rbs1, lg1)) :
    rbs1 = rbs.filter (fun x => x.bill ≠ bid) ++ refs.filterMap (relOpt env bills bid) ∧
    (∀ row ∈ refs.filterMap (relOpt env bills bid), row.bill = bid) ∧
    lg1 = logs := by
  unfold processRelatedbills at h
  have hres := relLoop_ok env bills bid refs (rbs.filter (fun x => x.bill ≠ bid)) logs rbs1 lg1 h
  refine ⟨hres.1, ?_, hres.2⟩
  intro row hrow
  rw [List.mem_filterMap] at hrow
  obtain ⟨r, _, hr⟩ := hrow
  unfold relOpt at hr
  cases hre : relResolve env bills bid r with
  | error e => rw [hre] at hr; cases hr
  | ok o =>
    rw [hre] at hr
    cases o with
    | none => cases hr
    | some row2 =>
      cases hr
      exact relResolve_bill_eq env bills bid r row hre

/-- A persisted bill `(congress 111, type 1, number 2)` with id 9. -/
def tBillRec : Bill :=
  { id := 9,
    data := { congress := 111, bill_type := 1, number := 2, titles := [], title := none,
              introduced_date := "2009-01-06", current_status_date := "2009-01-07",
              current_status := 10, sponsor := none, sponsor_role := none },
    committees := [], terms := [], major_actions := [] }

/-- Two related-bill references: one resolvable against `tBillRec`, one
pointing at a bill that does not exist. -/
def tRefs : List XmlRelated :=
  [viewRef, missRef] where
  viewRef : XmlRelated :=
    { session := some "111", ty := some "h", number := some "2", relation := some "identical" }
  missRef : XmlRelated :=
    { session := some "112", ty := some "h", number := some "3", relation := none }

/-- Pre-existing rows: one stale row of bill 5, one row of another bill. -/
def tRbsIn : List RelatedBill :=
  [{ bill := 5, related_bill := 1, relation := none },
   { bill := 3, related_bill := 9, relation := none }]

theorem c9_witness :
    [RelatedBill.mk 3 9 none, RelatedBill.mk 5 9 (some "identical")] =
      tRbsIn.filter (fun x => x.bill ≠ 5) ++ tRefs.filterMap (relOpt testEnv [tBillRec] 5) ∧
    (∀ row ∈ tRefs.filterMap (relOpt testEnv [tBillRec] 5), row.bill = 5) ∧
    ["pre"] = ["pre"] :=
  c9_relatedbills_full_replace testEnv [tBillRec] 5 tRefs tRbsIn ["pre"]
    [RelatedBill.mk 3 9 none, RelatedBill.mk 5 9 (some "identical")] ["pre"] rfl

/-!
## C10 — skip-path fallback when the bill is absent
-/

/-- C10: when the change tracker reports the file unchanged and reprocessing
is not forced, but no bill matches the natural key derived from the path,
the skip path is abandoned and the file goes through exactly the full
parse-and-reconcile path — the same `fullParse` the changed branch runs. -/
theorem c10_skip_fallback (env : Env) (opts : Options) (st : St) (f : FileEntry)
    (bt c n : Int)
    (hch : fileChanged st.tracker (PathK.bill f.congressStr f.typeStr f.numberStr) f.sig = false)
    (hforce : opts.force = false)
    (hbt : env.billTypeByXmlCode f.typeStr = some bt)
    (hc : pyToInt f.congressStr = some c)
    (hn : pyToInt f.numberStr = some n)
    (habs : st.db.bills.filter
        (fun b => b.data.congress = c ∧ b.data.bill_type = bt ∧ b.data.number = n) = []) :
    handleFile env opts st f = fullParse env opts st f := by
  unfold handleFile lookupBillByKey
  simp only [hch, hforce, hbt, hc, hn, habs, and_self, ite_true]

/-- The tracker state for the C10 witness: the bill file is recorded with
its current signature (hence "unchanged") and no bill exists at all. -/
def st10 : St :=
  { db := { bills := [], cosponsors := [], relatedbills := [], persons := [],
            committeeRows := [], termRows := [], nextBillId := 0 },
    tracker := [(PathK.bill "111" "h" "1", 42)],
    seen := [], indexed := [], events := [], logs := [] }

/-- A well-formed bill document `(111, h, 1)`. -/
def goodDoc : BillNode :=
  { type_ := some "h", session := some "111", number := some "1",
    titles := [(some "official", some "introduced", some "A bill.")],
    introduced := [some "2009-01-06"],
    state := [(some "2009-01-07", some "INTRODUCED")],
    sponsor := [], cosponsors := [], committees := [], subjects := [],
    relatedbills := [], actions := [] }

def f10 : FileEntry :=
  { congressStr := "111", typeStr := "h", numberStr := "1", sig := 42,
    doc := goodDoc, textExists := false, textSig := 0 }

theorem c10_skip_fallback_witness :
    handleFile testEnv { force := false, disable_indexing := true, disable_events := true }
        st10 f10
      = fullParse testEnv { force := false, disable_indexing := true, disable_events := true }
          st10 f10 :=
  c10_skip_fallback testEnv
    { force := false, disable_indexing := true, disable_events := true }
    st10 f10 1 111 1 rfl rfl rfl rfl rfl rfl

/-!
## C5 — per-document error containment
-/

/-- C5, amended: a document whose root misses the required `type` attribute
makes the attribute mapper raise before anything is persisted; `main` does
not catch it, so the run stops with the state exactly as it was before the
failing file — prior state of the bill untouched and its ChangeTracker
record not updated (so it is retried next run), but the remaining files are
not processed either. -/
theorem c5_missing_attr_aborts (env : Env) (opts : Options) (st : St) (f : FileEntry)
    (rest : List FileEntry)
    (hforce : opts.force = true)
    (hmiss : f.doc.type_ = none) :
    processFiles env opts st (f :: rest) = (st, some (.missingAttr "type")) := by
  unfold processFiles handleFile
  rw [if_neg (by simp [hforce])]
  unfold fullParse processBill mapBillAttributes requireAttr
  rw [hmiss]
  simp [bind, Except.bind]

/-- A document identical to `goodDoc` but with the `type` attribute
missing. -/
def badDoc : BillNode :=
  { goodDoc with type_ := none }

def f5bad : FileEntry :=
  { congressStr := "111", typeStr := "h", numberStr := "1", sig := 1,
    doc := badDoc, textExists := false, textSig := 0 }

def f5good : FileEntry :=
  { congressStr := "111", typeStr := "h", numberStr := "2", sig := 2,
    doc := { goodDoc with number := some "2" }, textExists := false, textSig := 0 }

def opts5 : Options := { force := true, disable_indexing := true, disable_events := true }

def st5 : St :=
  { db := { bills := [], cosponsors := [], relatedbills := [], persons := [],
            committeeRows := [], termRows := [], nextBillId := 0 },
    tracker := [], seen := [], indexed := [], events := [], logs := [] }

/-- C5, counterexample to the claim as stated: with a malformed first file
and a well-formed second one, the run returns the *initial* state together
with the mapping error — the second file is never processed (no bill is
created for it and its tracker record is not written), whereas on its own
the second file processes fine and creates a bill.  So the failing document
is not "skipped while processing continues with the remaining files": the
error aborts the whole run. -/
theorem c5_counterexample :
    (processFiles testEnv opts5 st5 [f5bad, f5good]).2 = some (.missingAttr "type") ∧
    (processFiles testEnv opts5 st5 [f5bad, f5good]).1 = st5 ∧
    (processFiles testEnv opts5 st5 [f5good]).2 = none ∧
    (processFiles testEnv opts5 st5 [f5good]).1.db.bills.length = 1 :=
  ⟨rfl, rfl, rfl, rfl⟩

theorem c5_missing_attr_aborts_witness :
    processFiles testEnv opts5 st5 [f5bad, f5good] = (st5, some (.missingAttr "type")) :=
  c5_missing_attr_aborts testEnv opts5 st5 f5bad [f5good] rfl rfl

/-!
## Inversion of `processBill`, and list lemmas for the upsert proofs
-/

theorem map_eq_self_of_mem (l : List Bill) (f : Bill → Bill) (h : ∀ x ∈ l, f x = x) :
    l.map f = l := by
  induction l with
  | nil => rfl
  | cons a t ih =>
    simp only [List.map_cons, h a (by simp), List.cons.injEq, true_and]
    exact ih (fun x hx => h x (by simp [hx]))

/-- The data part of the bill record `process` builds before saving. -/
def mkData (env : Env) (node : BillNode) (bt congress num : Int) (intro : String)
    (sp spRole : Option Int) (stDate : String) (stCode : Int) : BillData :=
  { congress := congress, bill_type := bt, number := num, titles := node.titles,
    title := env.getPrimaryBillTitle node.titles, introduced_date := intro,
    current_status_date := stDate, current_status := stCode, sponsor := sp,
    sponsor_role := spRole }

theorem processBill_inv (env : Env) (db : DB) (node : BillNode) (r : PRes)
    (hrun : processBill env db node = .ok r) :
    ∃ bt congress num intro sp spRole stDate stCode bills1 next1 comlist logs1 termlist
      logs2 cos1 rbs1 logs3,
      mapBillAttributes env node = .ok (bt, congress, num) ∧
      processIntroduced env node = .ok intro ∧
      processSponsor env db.persons node.sponsor intro = .ok (sp, spRole) ∧
      processCurrentStatus env node = .ok (stDate, stCode) ∧
      saveBill db.bills db.nextBillId (mkData env node bt congress num intro sp spRole stDate stCode)
        = .ok (bills1, next1, r.bid) ∧
      comLoop db.committeeRows node.committees [] [] = .ok (comlist, logs1) ∧
      termLoop db.termRows congress node.subjects [] logs1 = .ok (termlist, logs2) ∧
      processCosponsors env db.persons r.bid node.cosponsors db.cosponsors = .ok cos1 ∧
      processRelatedbills env
          (updateBill (updateBill bills1 r.bid (fun b => { b with committees := comlist }))
            r.bid (fun b => { b with terms := termlist }))
          r.bid node.relatedbills db.relatedbills logs2 = .ok (rbs1, logs3) ∧
      r = { db := { bills := updateBill
                      (updateBill bills1 r.bid (fun b => { b with committees := comlist }))
                      r.bid (fun b => { b with terms := termlist }),
                    cosponsors := cos1, relatedbills := rbs1, persons := db.persons,
                    committeeRows := db.committeeRows, termRows := db.termRows,
                    nextBillId := next1 },
            bid := r.bid, logs := logs3 } := by
  unfold processBill at hrun
  cases h1 : mapBillAttributes env node with
  | error e => rw [h1] at hrun; simp at hrun
  | ok trip =>
  obtain ⟨bt, congress, num⟩ := trip
  rw [h1] at hrun
  simp only [] at hrun
  cases h2 : processIntroduced env node with
  | error e => rw [h2] at hrun; simp at hrun
  | ok intro =>
  rw [h2] at hrun
  simp only [] at hrun
  cases h3 : processSponsor env db.persons node.sponsor intro with
  | error e => rw [h3] at hrun; simp at hrun
  | ok sprr =>
  obtain ⟨sp, spRole⟩ := sprr
  rw [h3] at hrun
  simp only [] at hrun
  cases h4 : processCurrentStatus env node with
  | error e => rw [h4] at hrun; simp at hrun
  | ok strr =>
  obtain ⟨stDate, stCode⟩ := strr
  rw [h4] at hrun
  simp only [] at hrun
  cases h5 : saveBill db.bills db.nextBillId
      (mkData env node bt congress num intro sp spRole stDate stCode) with
  | error e =>
    have h5u := h5
    simp only [mkData] at h5u
    rw [h5u] at hrun
    simp at hrun
  | ok sres =>
  obtain ⟨bills1, next1, bid⟩ := sres
  have h5u := h5
  simp only [mkData] at h5u
  rw [h5u] at hrun
  simp only [] at hrun
  cases h6 : comLoop db.committeeRows node.committees [] [] with
  | error e => rw [h6] at hrun; simp at hrun
  | ok cres =>
  obtain ⟨comlist, logs1⟩ := cres
  rw [h6] at hrun
  simp only [] at hrun
  cases h7 : termLoop db.termRows congress node.subjects [] logs1 with
  | error e => rw [h7] at hrun; simp at hrun
  | ok tres =>
  obtain ⟨termlist, logs2⟩ := tres
  rw [h7] at hrun
  simp only [] at hrun
  cases h8 : processCosponsors env db.persons bid node.cosponsors db.cosponsors with
  | error e => rw [h8] at hrun; simp at hrun
  | ok cos1 =>
  rw [h8] at hrun
  simp only [] at hrun
  cases h9 : processRelatedbills env
      (updateBill (updateBill bills1 bid (fun b => { b with committees := comlist }))
        bid (fun b => { b with terms := termlist }))
      bid node.relatedbills db.relatedbills logs2 with
  | error e => rw [h9] at hrun; simp at hrun
  | ok rres =>
  obtain ⟨rbs1, logs3⟩ := rres
  rw [h9] at hrun
  simp only [Except.ok.injEq] at hrun
  subst hrun
  refine ⟨bt, congress, num, intro, sp, spRole, stDate, stCode, bills1, next1, comlist,
    logs1, termlist, logs2, cos1, rbs1, logs3, ?_, ?_, ?_, ?_, ?_, ?_, ?_, ?_, ?_, ?_⟩
  all_goals first
  | rfl
  | exact h1
  | exact h2
  | exact h3
  | exact h4
  | exact h5
  | exact h6
  | exact h7
  | exact h8
  | exact h9

theorem saveBill_inv (bills : List Bill) (next : Nat) (d : BillData) (bills1 : List Bill)
    (next1 bid : Nat) (hs : saveBill bills next d = .ok (bills1, next1, bid)) :
    (∃ b, bills.filter (fun x => x.data.congress = d.congress ∧ x.data.bill_type = d.bill_type
            ∧ x.data.number = d.number) = [b] ∧
      bid = b.id ∧ next1 = next ∧
      bills1 = bills.map (fun x => if x.id = b.id then
        { id := b.id, data := d, committees := x.committees, terms := x.terms,
          major_actions := [] } else x)) ∨
    (bills.filter (fun x => x.data.congress = d.congress ∧ x.data.bill_type = d.bill_type
            ∧ x.data.number = d.number) = [] ∧
      bid = next ∧ next1 = next + 1 ∧
      bills1 = bills ++
        [{ id := next, data := d, committees := [], terms := [], major_actions := [] }]) := by
  unfold saveBill lookupBillByKey at hs
  simp only [bind, Except.bind] at hs
  cases hfil : bills.filter (fun x => x.data.congress = d.congress ∧ x.data.bill_type = d.bill_type
      ∧ x.data.number = d.number) with
  | nil =>
    rw [hfil] at hs
    simp only [Except.ok.injEq, Prod.mk.injEq] at hs
    right
    exact ⟨rfl, hs.2.2.symm, hs.2.1.symm, hs.1.symm⟩
  | cons x tl =>
    rw [hfil] at hs
    cases tl with
    | nil =>
      simp only [Except.ok.injEq, Prod.mk.injEq] at hs
      left
      exact ⟨x, rfl, hs.2.2.symm, hs.2.1.symm, hs.1.symm⟩
    | cons y tl2 => simp at hs

theorem map_id_pointwise (l : List Bill) (f : Bill → Bill) (h : ∀ x, (f x).id = x.id) :
    (l.map f).map (fun x => x.id) = l.map (fun x => x.id) := by
  rw [List.map_map]
  congr 1
  funext x
  simp [Function.comp, h]

theorem bills3_map_form (bills : List Bill) (i : Nat) (d : BillData)
    (comlist : List Int) (termlist : List Nat) :
    updateBill (updateBill (bills.map (fun x => if x.id = i then
        { id := i, data := d, committees := x.committees, terms := x.terms,
          major_actions := [] } else x))
      i (fun b => { b with committees := comlist })) i (fun b => { b with terms := termlist })
    = bills.map (fun x => if x.id = i then
        { id := i, data := d, committees := comlist, terms := termlist,
          major_actions := [] } else x) := by
  unfold updateBill
  rw [List.map_map, List.map_map]
  congr 1
  funext x
  by_cases hx : x.id = i
  · simp [Function.comp, hx]
  · simp [Function.comp, hx]

theorem bills3_append_form (bills : List Bill) (next : Nat) (d : BillData)
    (comlist : List Int) (termlist : List Nat) (hne : ∀ x ∈ bills, x.id ≠ next) :
    updateBill (updateBill (bills ++
        [{ id := next, data := d, committees := [], terms := [], major_actions := [] }])
      next (fun b => { b with committees := comlist })) next (fun b => { b with terms := termlist })
    = bills ++
      [{ id := next, data := d, committees := comlist, terms := termlist, major_actions := [] }] := by
  unfold updateBill
  rw [List.map_append, List.map_append]
  have hbase : ∀ (g : Bill → Bill), (∀ x ∈ bills, (if x.id = next then g x else x) = x) := by
    intro g x hx
    rw [if_neg (hne x hx)]
  rw [map_eq_self_of_mem _ _ (hbase _)]
  rw [List.map_map]
  rw [map_eq_self_of_mem]
  · simp
  · intro x hx
    simp [Function.comp, hne x hx]

theorem filter_map_replace (l : List Bill) (i : Nat) (rF : Bill) (p : Bill → Bool)
    (hnd : (l.map (fun x => x.id)).Nodup)
    (b : Bill) (hb : l.filter p = [b]) (hbi : b.id = i) (hpF : p rF = true) :
    (l.map (fun x => if x.id = i then rF else x)).filter p = [rF] := by
  induction l with
  | nil => simp at hb
  | cons x t ih =>
    rw [List.map_cons, List.nodup_cons] at hnd
    rw [List.filter_cons] at hb
    by_cases hpx : p x = true
    · rw [if_pos hpx] at hb
      have hxb : x = b := by
        have := List.head_eq_of_cons_eq hb
        exact this
      have htf : t.filter p = [] := List.tail_eq_of_cons_eq hb
      rw [List.map_cons, List.filter_cons]
      subst hxb
      rw [if_pos hbi, if_pos hpF]
      have hmap : t.map (fun y => if y.id = i then rF else y) = t := by
        apply map_eq_self_of_mem
        intro y hy
        rw [if_neg]
        intro hyi
        exact hnd.1 (by
          rw [← hbi] at hyi
          rw [List.mem_map]
          exact ⟨y, hy, hyi⟩)
      rw [hmap, htf]
    · rw [if_neg hpx] at hb
      have hxne : x.id ≠ i := by
        intro hxi
        have hbmem : b ∈ t := by
          have := List.mem_of_mem_filter (l := t) (p := p) (a := b) (by rw [hb]; simp)
          exact this
        exact hnd.1 (by
          rw [List.mem_map]
          exact ⟨b, hbmem, by rw [hbi, ← hxi]⟩)
      rw [List.map_cons, if_neg hxne, List.filter_cons, if_neg hpx]
      exact ih hnd.2 hb

/-!
## C1 — upsert correctness
-/

/-- C1: when a bill with the document's natural key `(congress, bill_type,
number)` already exists (uniquely), a successful reconciliation adopts that
record's id (the returned bill id is the existing id), the table keeps
exactly the same ids in the same order (no record is created or deleted),
and exactly one record holds the key afterwards. -/
theorem c1_upsert (env : Env) (db : DB) (node : BillNode) (r : PRes) (b : Bill)
    (bt c n : Int)
    (hnd : (db.bills.map (fun x => x.id)).Nodup)
    (hattrs : mapBillAttributes env node = .ok (bt, c, n))
    (hone : db.bills.filter (fun x => x.data.congress = c ∧ x.data.bill_type = bt
        ∧ x.data.number = n) = [b])
    (hrun : processBill env db node = .ok r) :
    r.bid = b.id ∧
    r.db.bills.map (fun x => x.id) = db.bills.map (fun x => x.id) ∧
    (r.db.bills.filter (fun x => x.data.congress = c ∧ x.data.bill_type = bt
        ∧ x.data.number = n)).length = 1 := by
  obtain ⟨bt', c', n', intro, sp, spRole, stDate, stCode, bills1, next1, comlist, logs1,
    termlist, logs2, cos1, rbs1, logs3, h1, h2, h3, h4, h5, h6, h7, h8, h9, hr⟩ :=
    processBill_inv env db node r hrun
  rw [hattrs] at h1
  obtain ⟨hbt, hc, hn⟩ : bt = bt' ∧ c = c' ∧ n = n' := by
    simpa using h1
  subst hbt
  subst hc
  subst hn
  rcases saveBill_inv db.bills db.nextBillId _ bills1 next1 r.bid h5 with
    ⟨b2, hfil2, hbid, hnext, hbl⟩ | ⟨hfil0, hbid, hnext, hbl⟩
  · simp only [mkData] at hfil2
    rw [hone] at hfil2
    have hb2 : b = b2 := by simpa using hfil2
    subst hb2
    rw [hr]
    simp only []
    refine ⟨hbid, ?_, ?_⟩
    · rw [hbid, hbl, bills3_map_form]
      apply map_id_pointwise
      intro x
      by_cases hx : x.id = b.id
      · simp [hx]
      · simp [hx]
    · rw [hbid, hbl, bills3_map_form]
      rw [filter_map_replace db.bills b.id
        { id := b.id, data := mkData env node bt c n intro sp spRole stDate stCode,
          committees := comlist, terms := termlist, major_actions := [] }
        _ hnd b hone rfl (by simp [mkData])]
      rfl
  · simp only [mkData] at hfil0
    rw [hone] at hfil0
    cases hfil0

/-- An existing bill record under key `(111, 1, 1)` with id 4. -/
def c1Bex : Bill :=
  { id := 4,
    data := { congress := 111, bill_type := 1, number := 1, titles := [], title := none,
              introduced_date := "x", current_status_date := "y", current_status := 11,
              sponsor := none, sponsor_role := none },
    committees := [7], terms := [], major_actions := [("a", 10, "t")] }

def c1Db : DB :=
  { bills := [c1Bex], cosponsors := [], relatedbills := [], persons := [],
    committeeRows := [], termRows := [], nextBillId := 5 }

def c1BillOut : Bill :=
  { id := 4,
    data := { congress := 111, bill_type := 1, number := 1,
              titles := [(some "official", some "introduced", some "A bill.")],
              title := some "A bill.", introduced_date := "2009-01-06",
              current_status_date := "2009-01-07", current_status := 10,
              sponsor := none, sponsor_role := none },
    committees := [], terms := [], major_actions := [] }

def c1Res : PRes :=
  { db := { bills := [c1BillOut], cosponsors := [], relatedbills := [], persons := [],
            committeeRows := [], termRows := [], nextBillId := 5 },
    bid := 4, logs := [] }

theorem c1_upsert_witness :
    c1Res.bid = c1Bex.id ∧
    c1Res.db.bills.map (fun x => x.id) = c1Db.bills.map (fun x => x.id) ∧
    (c1Res.db.bills.filter (fun x => x.data.congress = 111 ∧ x.data.bill_type = 1
        ∧ x.data.number = 1)).length = 1 :=
  c1_upsert testEnv c1Db goodDoc c1Res c1Bex 1 111 1 (by decide) rfl rfl rfl

/-!
## C2 — idempotence: cosponsor machinery

`process_consponsors` is the one stage whose second run can differ
intermediate-state-wise from the first (a document may list the same person
twice with different dates); the following lemmas show the final state is
nevertheless a fixed point.
-/

theorem map_eq_self_mem {α : Type} (l : List α) (f : α → α) (h : ∀ x ∈ l, f x = x) :
    l.map f = l := by
  induction l with
  | nil => rfl
  | cons a t ih =>
    simp only [List.map_cons, h a (by simp), List.cons.injEq, true_and]
    exact ih (fun x hx => h x (by simp [hx]))

theorem filter_map_invariant {α : Type} (l : List α) (f : α → α) (p : α → Bool)
    (h1 : ∀ c, p (f c) = p c) (h2 : ∀ c, p c = true → f c = c) :
    (l.map f).filter p = l.filter p := by
  induction l with
  | nil => rfl
  | cons a t ih =>
    rw [List.map_cons, List.filter_cons, List.filter_cons, h1 a]
    cases hpa : p a with
    | false => simpa [hpa] using ih
    | true => simp only [hpa, ite_true, h2 a hpa]; rw [ih]

theorem eq_of_filter_singleton {α : Type} (l : List α) (p : α → Bool) (ob : α)
    (h : l.filter p = [ob]) : ∀ c ∈ l, p c = true → c = ob := by
  induction l with
  | nil => intro c hc; cases hc
  | cons a t ih =>
    rw [List.filter_cons] at h
    intro c hc hpc
    cases hpa : p a with
    | true =>
      rw [hpa, if_pos rfl] at h
      have ha : a = ob := List.head_eq_of_cons_eq h
      have ht : t.filter p = [] := List.tail_eq_of_cons_eq h
      rcases List.mem_cons.mp hc with hca | hct
      · rw [hca, ha]
      · exact absurd (List.mem_filter.mpr ⟨hct, hpc⟩) (by rw [ht]; simp)
    | false =>
      rw [hpa] at h
      simp only [Bool.false_eq_true, ite_false] at h
      rcases List.mem_cons.mp hc with hca | hct
      · rw [hca] at hpc; rw [hpc] at hpa; cases hpa
      · exact ih h c hct hpc

/-- In-place update of the `joined`/`withdrawn` fields of the `(p, bid)`
row(s), as the source's conditional write performs it. -/
def setVals (cs : List Cosponsor) (p : Int) (bid : Nat) (j : String) (w : Option String) :
    List Cosponsor :=
  cs.map (fun c => if c.person = p ∧ c.bill = bid then
    { c with joined := j, withdrawn := w } else c)

/-- The resolution part of one cosponsor iteration: the person, the parsed
`joined` date, and the parsed optional `withdrawn` date. -/
def cosResolve (env : Env) (persons : List Int) (sn : XmlCosponsor) :
    Except PyErr (Int × String × Option String) := do
  let p ← get_person persons sn.id
  let joined ← match sn.joined with
    | none => Except.error PyErr.typeError
    | some s => Except.ok (env.parseDatetime s)
  Except.ok (p, joined,
    match sn.withdrawn with
    | none => none
    | some s => if s = "" then none else some (env.parseDatetime s))

theorem setVals_keys (cs : List Cosponsor) (p : Int) (bid : Nat) (j : String)
    (w : Option String) :
    (setVals cs p bid j w).map (fun c => (c.person, c.bill))
      = cs.map (fun c => (c.person, c.bill)) := by
  unfold setVals
  rw [List.map_map]
  congr 1
  funext c
  by_cases hc : c.person = p ∧ c.bill = bid
  · simp [Function.comp, hc]
  · simp [Function.comp, hc]

theorem setVals_overwrite (cs : List Cosponsor) (p : Int) (bid : Nat) (a j : String)
    (b w : Option String) :
    setVals (setVals cs p bid a b) p bid j w = setVals cs p bid j w := by
  unfold setVals
  rw [List.map_map]
  congr 1
  funext c
  by_cases hc : c.person = p ∧ c.bill = bid
  · simp [Function.comp, hc]
  · simp [Function.comp, hc]

theorem setVals_comm (cs : List Cosponsor) (p q : Int) (bid : Nat) (a j : String)
    (b w : Option String) (hpq : q ≠ p) :
    setVals (setVals cs p bid a b) q bid j w = setVals (setVals cs q bid j w) p bid a b := by
  unfold setVals
  rw [List.map_map, List.map_map]
  congr 1
  funext c
  by_cases hc : c.person = p ∧ c.bill = bid
  · have hq : ¬ (c.person = q ∧ c.bill = bid) := by
      intro hcq
      exact hpq (by rw [← hcq.1, hc.1])
    simp [Function.comp, hc, hq, hpq, Ne.symm hpq]
  · by_cases hcq : c.person = q ∧ c.bill = bid
    · simp [Function.comp, hc, hcq, hpq, Ne.symm hpq]
    · simp [Function.comp, hc, hcq]

theorem setVals_filter_other (cs : List Cosponsor) (p q : Int) (bid : Nat) (j : String)
    (w : Option String) (hpq : q ≠ p) :
    (setVals cs p bid j w).filter (fun c => c.person = q ∧ c.bill = bid)
      = cs.filter (fun c => c.person = q ∧ c.bill = bid) := by
  apply filter_map_invariant
  · intro c
    by_cases hc : c.person = p ∧ c.bill = bid
    · simp [hc]
    · simp [hc]
  · intro c hpc
    rw [if_neg]
    intro hc
    rw [decide_eq_true_iff] at hpc
    exact hpq (by rw [← hpc.1, hc.1])

theorem setVals_self (cs : List Cosponsor) (p : Int) (bid : Nat) (ob : Cosponsor)
    (hfil : cs.filter (fun c => c.person = p ∧ c.bill = bid) = [ob]) :
    setVals cs p bid ob.joined ob.withdrawn = cs := by
  apply map_eq_self_mem
  intro c hc
  by_cases hck : c.person = p ∧ c.bill = bid
  · have hco : c = ob :=
      eq_of_filter_singleton cs _ ob hfil c hc (by simp [hck])
    rw [if_pos hck, hco]
  · rw [if_neg hck]

/-- The fresh row `get_or_create` inserts. -/
def newCosRow (env : Env) (bid : Nat) (p : Int) (j : String) (w : Option String) : Cosponsor :=
  { person := p, bill := bid, joined := j, withdrawn := w, role := env.roleAt p j }

theorem cosStep_resolve_error (env : Env) (persons : List Int) (bid : Nat)
    (cs : List Cosponsor) (sn : XmlCosponsor) (e : PyErr)
    (hres : cosResolve env persons sn = .error e) :
    cosStep env persons bid cs sn = .error e := by
  unfold cosResolve at hres
  unfold cosStep
  simp only [bind, Except.bind] at hres ⊢
  cases hg : get_person persons sn.id with
  | error e2 => rw [hg] at hres; simp only [Except.error.injEq] at hres; rw [hres]
  | ok p =>
    rw [hg] at hres
    simp only [] at hres ⊢
    cases hj : sn.joined with
    | none =>
      rw [hj] at hres
      simp only [Except.error.injEq] at hres
      rw [← hres]
    | some s => rw [hj] at hres; simp at hres

theorem cosStep_create (env : Env) (persons : List Int) (bid : Nat)
    (cs : List Cosponsor) (sn : XmlCosponsor) (p : Int) (j : String) (w : Option String)
    (hres : cosResolve env persons sn = .ok (p, j, w))
    (hfil : cs.filter (fun c => c.person = p ∧ c.bill = bid) = []) :
    cosStep env persons bid cs sn = .ok (cs ++ [newCosRow env bid p j w]) := by
  unfold cosResolve at hres
  unfold cosStep newCosRow
  simp only [bind, Except.bind] at hres ⊢
  cases hg : get_person persons sn.id with
  | error e2 => rw [hg] at hres; simp at hres
  | ok p2 =>
    rw [hg] at hres
    simp only [] at hres ⊢
    cases hj : sn.joined with
    | none => rw [hj] at hres; simp at hres
    | some s =>
      rw [hj] at hres
      simp only [Except.ok.injEq, Prod.mk.injEq] at hres
      obtain ⟨hp2, hjw⟩ := hres
      subst hp2
      rw [hfil]
      simp only [Except.ok.injEq, List.append_cancel_left_eq, List.cons.injEq, and_true]
      rw [hjw.1, hjw.2]

theorem cosStep_update (env : Env) (persons : List Int) (bid : Nat)
    (cs : List Cosponsor) (sn : XmlCosponsor) (p : Int) (j : String) (w : Option String)
    (ob : Cosponsor)
    (hres : cosResolve env persons sn = .ok (p, j, w))
    (hfil : cs.filter (fun c => c.person = p ∧ c.bill = bid) = [ob]) :
    cosStep env persons bid cs sn = .ok (setVals cs p bid j w) := by
  unfold cosResolve at hres
  unfold cosStep
  simp only [bind, Except.bind] at hres ⊢
  cases hg : get_person persons sn.id with
  | error e2 => rw [hg] at hres; simp at hres
  | ok p2 =>
    rw [hg] at hres
    simp only [] at hres ⊢
    cases hj : sn.joined with
    | none => rw [hj] at hres; simp at hres
    | some s =>
      rw [hj] at hres
      simp only [Except.ok.injEq, Prod.mk.injEq] at hres
      obtain ⟨hp2, hjw⟩ := hres
      subst hp2
      simp only []
      rw [hfil]
      simp only []
      rw [hjw.1, hjw.2]
      by_cases hdif : ob.joined ≠ j ∨ ob.withdrawn ≠ w
      · rw [if_pos hdif]
        rfl
      · rw [if_neg hdif]
        push_neg at hdif
        have hj2 : j = ob.joined := hdif.1.symm
        have hw2 : w = ob.withdrawn := hdif.2.symm
        subst hj2
        subst hw2
        rw [setVals_self _ _ _ ob hfil]

theorem cosStep_inv (env : Env) (persons : List Int) (bid : Nat)
    (cs : List Cosponsor) (sn : XmlCosponsor) (cs1 : List Cosponsor)
    (h : cosStep env persons bid cs sn = .ok cs1) :
    ∃ p j w, cosResolve env persons sn = .ok (p, j, w) ∧
      ((cs.filter (fun c => c.person = p ∧ c.bill = bid) = [] ∧
        cs1 = cs ++ [newCosRow env bid p j w]) ∨
       (∃ ob, cs.filter (fun c => c.person = p ∧ c.bill = bid) = [ob] ∧
        cs1 = setVals cs p bid j w)) := by
  cases hres : cosResolve env persons sn with
  | error e =>
    rw [cosStep_resolve_error env persons bid cs sn e hres] at h
    cases h
  | ok trip =>
    obtain ⟨p, j, w⟩ := trip
    refine ⟨p, j, w, rfl, ?_⟩
    cases hfil : cs.filter (fun c => c.person = p ∧ c.bill = bid) with
    | nil =>
      rw [cosStep_create env persons bid cs sn p j w hres hfil] at h
      left
      exact ⟨rfl, by injection h with h2; rw [← h2]⟩
    | cons ob tl =>
      cases tl with
      | nil =>
        rw [cosStep_update env persons bid cs sn p j w ob hres hfil] at h
        right
        exact ⟨ob, rfl, by injection h with h2; rw [← h2]⟩
      | cons ob2 tl2 =>
        exfalso
        unfold cosResolve at hres
        unfold cosStep at h
        simp only [bind, Except.bind] at hres h
        cases hg : get_person persons sn.id with
        | error e2 => rw [hg] at hres; simp at hres
        | ok p2 =>
          rw [hg] at hres h
          simp only [] at hres h
          cases hj : sn.joined with
          | none => rw [hj] at hres; simp at hres
          | some s =>
            rw [hj] at hres h
            simp only [] at h
            simp only [Except.ok.injEq, Prod.mk.injEq] at hres
            obtain ⟨hp2, hjw⟩ := hres
            subst hp2
            rw [hfil] at h
            cases h

/-- The `(person, bill)` keys of the cosponsor rows. -/
def cosKeys (cs : List Cosponsor) : List (Int × Nat) := cs.map (fun c => (c.person, c.bill))

theorem key_mem_iff_filter_ne_nil (cs : List Cosponsor) (p : Int) (bid : Nat) :
    (p, bid) ∈ cosKeys cs ↔ cs.filter (fun c => c.person = p ∧ c.bill = bid) ≠ [] := by
  unfold cosKeys
  rw [List.mem_map]
  constructor
  · rintro ⟨c, hc, hk⟩
    have hpc : (fun c => decide (c.person = p ∧ c.bill = bid)) c = true := by
      simp only [Prod.mk.injEq] at hk
      simp [hk.1, hk.2]
    intro hnil
    exact absurd (List.mem_filter.mpr ⟨hc, hpc⟩) (by rw [hnil]; simp)
  · intro hne
    cases hf : cs.filter (fun c => c.person = p ∧ c.bill = bid) with
    | nil => exact absurd hf hne
    | cons c tl =>
      have hc : c ∈ cs.filter (fun c => c.person = p ∧ c.bill = bid) := by rw [hf]; simp
      rw [List.mem_filter] at hc
      refine ⟨c, hc.1, ?_⟩
      have := hc.2
      rw [decide_eq_true_iff] at this
      rw [this.1, this.2]

theorem filter_singleton_of_key_mem (cs : List Cosponsor) (p : Int) (bid : Nat)
    (hnd : (cosKeys cs).Nodup) (hmem : (p, bid) ∈ cosKeys cs) :
    ∃ ob, cs.filter (fun c => c.person = p ∧ c.bill = bid) = [ob] := by
  induction cs with
  | nil => cases hmem
  | cons c t ih =>
    unfold cosKeys at hnd hmem
    rw [List.map_cons, List.nodup_cons] at hnd
    rw [List.map_cons, List.mem_cons] at hmem
    rw [List.filter_cons]
    by_cases hck : c.person = p ∧ c.bill = bid
    · rw [if_pos (by simp [hck])]
      refine ⟨c, ?_⟩
      have hnone : ¬ (p, bid) ∈ cosKeys t := by
        intro hmt
        apply hnd.1
        unfold cosKeys at hmt
        rw [← hck.1, ← hck.2] at hmt
        exact hmt
      have : t.filter (fun c => c.person = p ∧ c.bill = bid) = [] := by
        by_contra hne
        exact hnone ((key_mem_iff_filter_ne_nil t p bid).mpr hne)
      rw [this]
    · rw [if_neg (by simp [hck])]
      apply ih hnd.2
      rcases hmem with hh | ht
      · exfalso
        apply hck
        have h1 : c.person = p := (congrArg Prod.fst hh).symm
        have h2 : c.bill = bid := (congrArg Prod.snd hh).symm
        exact ⟨h1, h2⟩
      · exact ht

theorem filter_map_pred_comm {α : Type} (l : List α) (f : α → α) (p : α → Bool)
    (h : ∀ c, p (f c) = p c) : (l.map f).filter p = (l.filter p).map f := by
  induction l with
  | nil => rfl
  | cons a t ih =>
    rw [List.map_cons, List.filter_cons, List.filter_cons, h a]
    cases hpa : p a with
    | false => simpa using ih
    | true => simp only [ite_true]; rw [List.map_cons, ih]

theorem setVals_filter_self (cs : List Cosponsor) (p : Int) (bid : Nat) (j : String)
    (w : Option String) (ob : Cosponsor)
    (hfil : cs.filter (fun c => c.person = p ∧ c.bill = bid) = [ob]) :
    (setVals cs p bid j w).filter (fun c => c.person = p ∧ c.bill = bid)
      = [{ ob with joined := j, withdrawn := w }] := by
  unfold setVals
  rw [filter_map_pred_comm]
  · rw [hfil]
    have hobk : ob.person = p ∧ ob.bill = bid := by
      have hob : ob ∈ cs.filter (fun c => c.person = p ∧ c.bill = bid) := by rw [hfil]; simp
      rw [List.mem_filter] at hob
      have := hob.2
      rwa [decide_eq_true_iff] at this
    rw [List.map_cons, List.map_nil, if_pos hobk]
  · intro c
    by_cases hc : c.person = p ∧ c.bill = bid
    · simp [hc]
    · simp [hc]

theorem setVals_append_nonkey (cs : List Cosponsor) (p q : Int) (bid : Nat) (j : String)
    (w : Option String) (row : Cosponsor) (hrq : row.person = q) (hqp : q ≠ p) :
    setVals cs p bid j w ++ [row] = setVals (cs ++ [row]) p bid j w := by
  unfold setVals
  rw [List.map_append, List.map_cons, List.map_nil]
  rw [if_neg]
  intro hk
  exact hqp (by rw [← hrq, hk.1])

theorem cosStep_key_facts (env : Env) (persons : List Int) (bid : Nat)
    (cs : List Cosponsor) (sn : XmlCosponsor) (cs1 : List Cosponsor)
    (h : cosStep env persons bid cs sn = .ok cs1) :
    (∀ k ∈ cosKeys cs, k ∈ cosKeys cs1) ∧
    ((cosKeys cs).Nodup → (cosKeys cs1).Nodup) := by
  obtain ⟨p, j, w, hres, hcase⟩ := cosStep_inv env persons bid cs sn cs1 h
  rcases hcase with ⟨hfil, hcs1⟩ | ⟨ob, hfil, hcs1⟩
  · subst hcs1
    constructor
    · intro k hk
      unfold cosKeys at hk ⊢
      rw [List.map_append]
      exact List.mem_append_left _ hk
    · intro hnd
      unfold cosKeys
      rw [List.map_append]
      rw [List.nodup_append]
      refine ⟨hnd, by simp, ?_⟩
      intro k hk hk2
      simp only [newCosRow, List.map_cons, List.map_nil, List.mem_singleton] at hk2
      rw [hk2] at hk
      exact (key_mem_iff_filter_ne_nil cs p bid).mp hk hfil
  · subst hcs1
    constructor
    · intro k hk
      unfold cosKeys
      rw [setVals_keys]
      exact hk
    · intro hnd
      unfold cosKeys
      rw [setVals_keys]
      exact hnd

theorem cosFold_key_facts (env : Env) (persons : List Int) (bid : Nat) :
    ∀ (l : List XmlCosponsor) (cs cs' : List Cosponsor),
    processCosponsors env persons bid l cs = .ok cs' →
    (∀ k ∈ cosKeys cs, k ∈ cosKeys cs') ∧
    ((cosKeys cs).Nodup → (cosKeys cs').Nodup) := by
  intro l
  induction l with
  | nil =>
    intro cs cs' h
    unfold processCosponsors at h
    injection h with h2
    subst h2
    exact ⟨fun k hk => hk, fun hnd => hnd⟩
  | cons sn rest ih =>
    intro cs cs' h
    unfold processCosponsors at h
    cases hstep : cosStep env persons bid cs sn with
    | error e => rw [hstep] at h; cases h
    | ok cs1 =>
      rw [hstep] at h
      have hkf := cosStep_key_facts env persons bid cs sn cs1 hstep
      have hrest := ih cs1 cs' h
      exact ⟨fun k hk => hrest.1 k (hkf.1 k hk), fun hnd => hrest.2 (hkf.2 hnd)⟩

/-- Some element of `l` resolves to person `p`. -/
def occursP (env : Env) (persons : List Int) (l : List XmlCosponsor) (p : Int) : Prop :=
  ∃ sn ∈ l, ∃ j w, cosResolve env persons sn = .ok (p, j, w)

theorem cosFold_noocc (env : Env) (persons : List Int) (bid : Nat) :
    ∀ (l : List XmlCosponsor) (cs cs' : List Cosponsor) (p : Int),
    processCosponsors env persons bid l cs = .ok cs' →
    ¬ occursP env persons l p →
    cs'.filter (fun c => c.person = p ∧ c.bill = bid)
      = cs.filter (fun c => c.person = p ∧ c.bill = bid) := by
  intro l
  induction l with
  | nil =>
    intro cs cs' p h _
    unfold processCosponsors at h
    injection h with h2
    subst h2
    rfl
  | cons sn rest ih =>
    intro cs cs' p h hno
    unfold processCosponsors at h
    cases hstep : cosStep env persons bid cs sn with
    | error e => rw [hstep] at h; cases h
    | ok cs1 =>
      rw [hstep] at h
      obtain ⟨q, j, w, hres, hcase⟩ := cosStep_inv env persons bid cs sn cs1 hstep
      have hqp : q ≠ p := by
        intro hqp
        exact hno ⟨sn, by simp, j, w, by rw [← hqp]; exact hres⟩
      have hnorest : ¬ occursP env persons rest p := by
        intro ⟨sn2, hsn2, j2, w2, hres2⟩
        exact hno ⟨sn2, by simp [hsn2], j2, w2, hres2⟩
      have hstep_fil : cs1.filter (fun c => c.person = p ∧ c.bill = bid)
          = cs.filter (fun c => c.person = p ∧ c.bill = bid) := by
        rcases hcase with ⟨hfil, hcs1⟩ | ⟨ob, hfil, hcs1⟩
        · subst hcs1
          rw [List.filter_append]
          have : ([newCosRow env bid q j w].filter
              (fun c => c.person = p ∧ c.bill = bid)) = [] := by
            simp [newCosRow, hqp]
          rw [this, List.append_nil]
        · subst hcs1
          exact setVals_filter_other cs q p bid j w (Ne.symm hqp)
      rw [← hstep_fil]
      exact ih cs1 cs' p h hnorest

theorem cosFold_shadow (env : Env) (persons : List Int) (bid : Nat) :
    ∀ (l : List XmlCosponsor) (t s : List Cosponsor) (p : Int) (j0 : String)
      (w0 : Option String),
    (cosKeys t).Nodup → (p, bid) ∈ cosKeys t →
    processCosponsors env persons bid l t = .ok s →
    (occursP env persons l p →
      processCosponsors env persons bid l (setVals t p bid j0 w0) = .ok s) ∧
    (¬ occursP env persons l p →
      processCosponsors env persons bid l (setVals t p bid j0 w0)
        = .ok (setVals s p bid j0 w0)) := by
  intro l
  induction l with
  | nil =>
    intro t s p j0 w0 _ _ h
    unfold processCosponsors at h
    injection h with h2
    subst h2
    constructor
    · intro ⟨sn, hsn, _⟩
      cases hsn
    · intro _
      rfl
  | cons sn rest ih =>
    intro t s p j0 w0 hnd hmem h
    unfold processCosponsors at h
    cases hstep : cosStep env persons bid t sn with
    | error e => rw [hstep] at h; cases h
    | ok t1 =>
      rw [hstep] at h
      obtain ⟨q, j, w, hres, hcase⟩ := cosStep_inv env persons bid t sn t1 hstep
      by_cases hqp : q = p
      · subst hqp
        obtain ⟨ob, hobfil⟩ := filter_singleton_of_key_mem t q bid hnd hmem
        have ht1 : t1 = setVals t q bid j w := by
          rcases hcase with ⟨hfil, _⟩ | ⟨ob2, hfil2, hcs1⟩
          · rw [hobfil] at hfil; cases hfil
          · exact hcs1
        obtain ⟨ob', hobfil'⟩ : ∃ ob', (setVals t q bid j0 w0).filter
            (fun c => c.person = q ∧ c.bill = bid) = [ob'] := by
          apply filter_singleton_of_key_mem
          · unfold cosKeys
            rw [setVals_keys]
            exact hnd
          · unfold cosKeys
            rw [setVals_keys]
            exact hmem
        have hstep' : cosStep env persons bid (setVals t q bid j0 w0) sn
            = .ok (setVals t q bid j w) := by
          rw [cosStep_update env persons bid _ sn q j w ob' hres hobfil']
          rw [setVals_overwrite]
        constructor
        · intro _
          unfold processCosponsors
          rw [hstep', ← ht1]
          exact h
        · intro hno
          exfalso
          exact hno ⟨sn, by simp, j, w, hres⟩
      · have hocc_iff : occursP env persons (sn :: rest) p ↔ occursP env persons rest p := by
          constructor
          · intro ⟨sn2, hsn2, j2, w2, hres2⟩
            rcases List.mem_cons.mp hsn2 with hh | ht
            · exfalso
              rw [hh] at hres2
              rw [hres2] at hres
              injection hres with hres3
              exact hqp (congrArg Prod.fst hres3).symm
            · exact ⟨sn2, ht, j2, w2, hres2⟩
          · intro ⟨sn2, hsn2, j2, w2, hres2⟩
            exact ⟨sn2, by simp [hsn2], j2, w2, hres2⟩
        rcases hcase with ⟨hfil, hcs1⟩ | ⟨obq, hfilq, hcs1⟩
        · -- create path for q
          have hfil' : (setVals t p bid j0 w0).filter
              (fun c => c.person = q ∧ c.bill = bid) = [] := by
            rw [setVals_filter_other t p q bid j0 w0 hqp]
            exact hfil
          have hstep' : cosStep env persons bid (setVals t p bid j0 w0) sn
              = .ok (setVals t1 p bid j0 w0) := by
            rw [cosStep_create env persons bid _ sn q j w hres hfil']
            rw [hcs1]
            rw [setVals_append_nonkey t p q bid j0 w0 (newCosRow env bid q j w) rfl hqp]
          have hnd1 : (cosKeys t1).Nodup :=
            (cosStep_key_facts env persons bid t sn t1 hstep).2 hnd
          have hmem1 : (p, bid) ∈ cosKeys t1 :=
            (cosStep_key_facts env persons bid t sn t1 hstep).1 _ hmem
          have hih := ih t1 s p j0 w0 hnd1 hmem1 h
          constructor
          · intro hocc
            unfold processCosponsors
            rw [hstep']
            exact hih.1 (hocc_iff.mp hocc)
          · intro hno
            unfold processCosponsors
            rw [hstep']
            exact hih.2 (fun hr => hno (hocc_iff.mpr hr))
        · -- update path for q
          have hfil' : (setVals t p bid j0 w0).filter
              (fun c => c.person = q ∧ c.bill = bid) = [obq] := by
            rw [setVals_filter_other t p q bid j0 w0 hqp]
            exact hfilq
          have hstep' : cosStep env persons bid (setVals t p bid j0 w0) sn
              = .ok (setVals t1 p bid j0 w0) := by
            rw [cosStep_update env persons bid _ sn q j w obq hres hfil']
            rw [hcs1]
            rw [setVals_comm t p q bid j0 j w0 w hqp]
          have hnd1 : (cosKeys t1).Nodup :=
            (cosStep_key_facts env persons bid t sn t1 hstep).2 hnd
          have hmem1 : (p, bid) ∈ cosKeys t1 :=
            (cosStep_key_facts env persons bid t sn t1 hstep).1 _ hmem
          have hih := ih t1 s p j0 w0 hnd1 hmem1 h
          constructor
          · intro hocc
            unfold processCosponsors
            rw [hstep']
            exact hih.1 (hocc_iff.mp hocc)
          · intro hno
            unfold processCosponsors
            rw [hstep']
            exact hih.2 (fun hr => hno (hocc_iff.mpr hr))

theorem cosFold_idem (env : Env) (persons : List Int) (bid : Nat) :
    ∀ (l : List XmlCosponsor) (cs cs' : List Cosponsor),
    (cosKeys cs).Nodup →
    processCosponsors env persons bid l cs = .ok cs' →
    processCosponsors env persons bid l cs' = .ok cs' := by
  intro l
  induction l with
  | nil =>
    intro cs cs' _ h
    unfold processCosponsors at h ⊢
    injection h with h2
    subst h2
    rfl
  | cons sn rest ih =>
    intro cs cs' hnd h
    unfold processCosponsors at h
    cases hstep : cosStep env persons bid cs sn with
    | error e => rw [hstep] at h; cases h
    | ok cs1 =>
      rw [hstep] at h
      obtain ⟨p, j, w, hres, hcase⟩ := cosStep_inv env persons bid cs sn cs1 hstep
      have hnd1 : (cosKeys cs1).Nodup :=
        (cosStep_key_facts env persons bid cs sn cs1 hstep).2 hnd
      have hmem1 : (p, bid) ∈ cosKeys cs1 := by
        rcases hcase with ⟨hfil, hcs1⟩ | ⟨ob, hfil, hcs1⟩
        · subst hcs1
          unfold cosKeys
          rw [List.map_append]
          apply List.mem_append_right
          simp [newCosRow]
        · subst hcs1
          unfold cosKeys
          rw [setVals_keys]
          apply (key_mem_iff_filter_ne_nil cs p bid).mpr
          rw [hfil]
          simp
      have hfoldkeys := cosFold_key_facts env persons bid rest cs1 cs' h
      have hnd' : (cosKeys cs').Nodup := hfoldkeys.2 hnd1
      have hmem' : (p, bid) ∈ cosKeys cs' := hfoldkeys.1 _ hmem1
      obtain ⟨ob', hobfil'⟩ := filter_singleton_of_key_mem cs' p bid hnd' hmem'
      have hstep' : cosStep env persons bid cs' sn = .ok (setVals cs' p bid j w) :=
        cosStep_update env persons bid cs' sn p j w ob' hres hobfil'
      have hrest_idem : processCosponsors env persons bid rest cs' = .ok cs' :=
        ih cs1 cs' hnd1 h
      -- the value the (p, bid) row has right after the first run's step
      have hfil1 : ∃ rowv, cs1.filter (fun c => c.person = p ∧ c.bill = bid) = [rowv]
          ∧ rowv.joined = j ∧ rowv.withdrawn = w := by
        rcases hcase with ⟨hfil, hcs1⟩ | ⟨ob, hfil, hcs1⟩
        · subst hcs1
          refine ⟨newCosRow env bid p j w, ?_, rfl, rfl⟩
          rw [List.filter_append, hfil, List.nil_append]
          simp [newCosRow]
        · subst hcs1
          refine ⟨{ ob with joined := j, withdrawn := w }, ?_, rfl, rfl⟩
          exact setVals_filter_self cs p bid j w ob hfil
      unfold processCosponsors
      rw [hstep']
      by_cases hocc : occursP env persons rest p
      · exact (cosFold_shadow env persons bid rest cs' cs' p j w hnd' hmem'
          hrest_idem).1 hocc
      · have hvals : ob'.joined = j ∧ ob'.withdrawn = w := by
          obtain ⟨rowv, hrowfil, hrj, hrw⟩ := hfil1
          have hsame := cosFold_noocc env persons bid rest cs1 cs' p h hocc
          rw [hrowfil] at hsame
          rw [hobfil'] at hsame
          injection hsame with hob2
          rw [hob2]
          exact ⟨hrj, hrw⟩
        have hsetself : setVals cs' p bid j w = cs' := by
          rw [← hvals.1, ← hvals.2]
          exact setVals_self cs' p bid ob' hobfil'
        rw [hsetself]
        exact hrest_idem

theorem second_save_update (bills : List Bill) (next : Nat) (d : BillData) (b : Bill)
    (comlist : List Int) (termlist : List Nat)
    (hnd : (bills.map (fun x => x.id)).Nodup)
    (hfil : bills.filter (fun x => x.data.congress = d.congress ∧ x.data.bill_type = d.bill_type
        ∧ x.data.number = d.number) = [b]) :
    saveBill (bills.map (fun x => if x.id = b.id then { id := b.id, data := d, committees := comlist, terms := termlist, major_actions := [] } else x)) next d
      = .ok (bills.map (fun x => if x.id = b.id then { id := b.id, data := d, committees := comlist, terms := termlist, major_actions := [] } else x), next, b.id) ∧
    updateBill (bills.map (fun x => if x.id = b.id then { id := b.id, data := d, committees := comlist, terms := termlist, major_actions := [] } else x)) b.id (fun bb => { bb with committees := comlist })
      = bills.map (fun x => if x.id = b.id then { id := b.id, data := d, committees := comlist, terms := termlist, major_actions := [] } else x) ∧
    updateBill (bills.map (fun x => if x.id = b.id then { id := b.id, data := d, committees := comlist, terms := termlist, major_actions := [] } else x)) b.id (fun bb => { bb with terms := termlist })
      = bills.map (fun x => if x.id = b.id then { id := b.id, data := d, committees := comlist, terms := termlist, major_actions := [] } else x) := by
  have hfil3 : (bills.map (fun x => if x.id = b.id then { id := b.id, data := d, committees := comlist, terms := termlist, major_actions := [] } else x)).filter
      (fun x => x.data.congress = d.congress ∧ x.data.bill_type = d.bill_type ∧ x.data.number = d.number)
      = [{ id := b.id, data := d, committees := comlist, terms := termlist, major_actions := [] }] :=
    filter_map_replace bills b.id _ _ hnd b hfil rfl (by simp)
  have hpt : ∀ x ∈ bills.map (fun x => if x.id = b.id then { id := b.id, data := d, committees := comlist, terms := termlist, major_actions := [] } else x), x.id = b.id →
      x = { id := b.id, data := d, committees := comlist, terms := termlist, major_actions := [] } := by
    intro x hx hxid
    rw [List.mem_map] at hx
    obtain ⟨y, hy, hxy⟩ := hx
    by_cases hyid : y.id = b.id
    · rw [← hxy, if_pos hyid]
    · rw [← hxy, if_neg hyid] at hxid
      exact absurd hxid hyid
  refine ⟨?_, ?_, ?_⟩
  · unfold saveBill lookupBillByKey
    simp only [bind, Except.bind]
    rw [hfil3]
    simp only [Except.ok.injEq, Prod.mk.injEq]
    refine ⟨?_, trivial⟩
    apply map_eq_self_of_mem
    intro x hx
    by_cases hxid : x.id = b.id
    · rw [if_pos hxid, hpt x hx hxid]
    · rw [if_neg hxid]
  · unfold updateBill
    apply map_eq_self_of_mem
    intro x hx
    by_cases hxid : x.id = b.id
    · rw [if_pos hxid, hpt x hx hxid]
    · rw [if_neg hxid]
  · unfold updateBill
    apply map_eq_self_of_mem
    intro x hx
    by_cases hxid : x.id = b.id
    · rw [if_pos hxid, hpt x hx hxid]
    · rw [if_neg hxid]

theorem second_save_insert (bills : List Bill) (next : Nat) (d : BillData)
    (comlist : List Int) (termlist : List Nat)
    (hlt : ∀ x ∈ bills, x.id < next)
    (hfil : bills.filter (fun x => x.data.congress = d.congress ∧ x.data.bill_type = d.bill_type
        ∧ x.data.number = d.number) = []) :
    saveBill (bills ++ [{ id := next, data := d, committees := comlist, terms := termlist, major_actions := [] }]) (next + 1) d
      = .ok (bills ++ [{ id := next, data := d, committees := comlist, terms := termlist, major_actions := [] }], next + 1, next) ∧
    updateBill (bills ++ [{ id := next, data := d, committees := comlist, terms := termlist, major_actions := [] }]) next (fun bb => { bb with committees := comlist })
      = bills ++ [{ id := next, data := d, committees := comlist, terms := termlist, major_actions := [] }] ∧
    updateBill (bills ++ [{ id := next, data := d, committees := comlist, terms := termlist, major_actions := [] }]) next (fun bb => { bb with terms := termlist })
      = bills ++ [{ id := next, data := d, committees := comlist, terms := termlist, major_actions := [] }] := by
  have hne : ∀ x ∈ bills, x.id ≠ next := fun x hx => Nat.ne_of_lt (hlt x hx)
  have hfil3 : (bills ++ [({ id := next, data := d, committees := comlist, terms := termlist, major_actions := [] } : Bill)]).filter
      (fun x => x.data.congress = d.congress ∧ x.data.bill_type = d.bill_type ∧ x.data.number = d.number)
      = [({ id := next, data := d, committees := comlist, terms := termlist, major_actions := [] } : Bill)] := by
    rw [List.filter_append, hfil, List.nil_append]
    simp
  refine ⟨?_, ?_, ?_⟩
  · unfold saveBill lookupBillByKey
    simp only [bind, Except.bind]
    rw [hfil3]
    simp only [Except.ok.injEq, Prod.mk.injEq]
    refine ⟨?_, trivial⟩
    rw [List.map_append]
    congr 1
    · apply map_eq_self_of_mem
      intro x hx
      rw [if_neg (hne x hx)]
    · simp
  · unfold updateBill
    rw [List.map_append]
    congr 1
    · apply map_eq_self_of_mem
      intro x hx
      rw [if_neg (hne x hx)]
    · simp
  · unfold updateBill
    rw [List.map_append]
    congr 1
    · apply map_eq_self_of_mem
      intro x hx
      rw [if_neg (hne x hx)]
    · simp

theorem filter_idem {α : Type} (p : α → Bool) (l : List α) :
    (l.filter p).filter p = l.filter p := by
  induction l with
  | nil => rfl
  | cons a t ih =>
    rw [List.filter_cons]
    cases hpa : p a with
    | false => simp only [Bool.false_eq_true, ite_false]; exact ih
    | true =>
      simp only [ite_true]
      rw [List.filter_cons, hpa]
      simp only [ite_true, List.cons.injEq, true_and]
      exact ih

theorem relbills_second_run (env : Env) (bills : List Bill) (bid : Nat)
    (refs : List XmlRelated) (rbs : List RelatedBill) (logs : List String)
    (rbs1 : List RelatedBill) (lg1 : List String)
    (h : processRelatedbills env bills bid refs rbs logs = .ok (rbs1, lg1)) :
    processRelatedbills env bills bid refs rbs1 logs = .ok (rbs1, lg1) := by
  unfold processRelatedbills at h ⊢
  have hlo := relLoop_ok env bills bid refs (rbs.filter (fun x => x.bill ≠ bid)) logs rbs1 lg1 h
  have hfilters : rbs1.filter (fun x => x.bill ≠ bid) = rbs.filter (fun x => x.bill ≠ bid) := by
    rw [hlo.1, List.filter_append]
    rw [filter_idem]
    have h2 : (refs.filterMap (relOpt env bills bid)).filter (fun x => x.bill ≠ bid) = [] := by
      rw [List.filter_eq_nil_iff]
      intro row hrow
      rw [List.mem_filterMap] at hrow
      obtain ⟨rr, hrr, hopt⟩ := hrow
      unfold relOpt at hopt
      have hbill : row.bill = bid := by
        cases hres : relResolve env bills bid rr with
        | error e => rw [hres] at hopt; cases hopt
        | ok o =>
          rw [hres] at hopt
          cases o with
          | none => cases hopt
          | some row2 =>
            cases hopt
            exact relResolve_bill_eq env bills bid rr row hres
      simp [hbill]
    rw [h2, List.append_nil]
  rw [hfilters]
  exact h

/-!
## C2 — idempotence of `BillProcessor.process`
-/

/-- C2: reconciling the same bill document twice in succession leaves the
persisted state of the first run untouched and returns the same bill
identity — the second run is a no-op on the database (well-formedness of
the starting database assumed: distinct bill ids below the id sequence, and
unique `(person, bill)` cosponsor keys). -/
theorem c2_idempotent (env : Env) (db : DB) (node : BillNode) (r : PRes)
    (hndB : (db.bills.map (fun x => x.id)).Nodup)
    (hlt : ∀ x ∈ db.bills, x.id < db.nextBillId)
    (hndC : (cosKeys db.cosponsors).Nodup)
    (hrun : processBill env db node = .ok r) :
    processBill env r.db node = .ok r := by
  obtain ⟨bt, congress, num, intro, sp, spRole, stDate, stCode, bills1, next1, comlist, logs1,
    termlist, logs2, cos1, rbs1, logs3, h1, h2, h3, h4, h5, h6, h7, h8, h9, hr⟩ :=
    processBill_inv env db node r hrun
  have hcos2 : processCosponsors env db.persons r.bid node.cosponsors cos1 = .ok cos1 :=
    cosFold_idem env db.persons r.bid node.cosponsors db.cosponsors cos1 hndC h8
  rcases saveBill_inv db.bills db.nextBillId _ bills1 next1 r.bid h5 with
    ⟨b, hfil, hbid, hnext, hbl⟩ | ⟨hfil, hbid, hnext, hbl⟩
  · -- the document's key matched an existing record: the save was an update
    subst hbl
    subst hnext
    have hsecond := second_save_update db.bills db.nextBillId
      (mkData env node bt congress num intro sp spRole stDate stCode) b comlist termlist
      hndB hfil
    have hb3can := bills3_map_form db.bills b.id
      (mkData env node bt congress num intro sp spRole stDate stCode) comlist termlist
    rw [hbid] at h9 hr hcos2
    simp only [mkData] at h9 hr hb3can hsecond
    rw [hb3can] at h9 hr
    have hrel2 := relbills_second_run env _ b.id node.relatedbills db.relatedbills logs2
      rbs1 logs3 h9
    rw [hr]
    simp only []
    unfold processBill
    rw [h1]
    simp only []
    rw [h2]
    simp only []
    rw [h3]
    simp only []
    rw [h4]
    simp only []
    rw [hsecond.1]
    simp only []
    rw [h6]
    simp only []
    rw [hsecond.2.1]
    rw [h7]
    simp only []
    rw [hsecond.2.2]
    rw [hcos2]
    simp only []
    rw [hrel2]
  · -- no record matched: the save was an insert
    subst hbl
    subst hnext
    have hne : ∀ x ∈ db.bills, x.id ≠ db.nextBillId := fun x hx => Nat.ne_of_lt (hlt x hx)
    have hsecond := second_save_insert db.bills db.nextBillId
      (mkData env node bt congress num intro sp spRole stDate stCode) comlist termlist
      hlt hfil
    have hb3can := bills3_append_form db.bills db.nextBillId
      (mkData env node bt congress num intro sp spRole stDate stCode) comlist termlist hne
    rw [hbid] at h9 hr hcos2
    simp only [mkData] at h9 hr hb3can hsecond
    rw [hb3can] at h9 hr
    have hrel2 := relbills_second_run env _ db.nextBillId node.relatedbills db.relatedbills
      logs2 rbs1 logs3 h9
    rw [hr]
    simp only []
    unfold processBill
    rw [h1]
    simp only []
    rw [h2]
    simp only []
    rw [h3]
    simp only []
    rw [h4]
    simp only []
    rw [hsecond.1]
    simp only []
    rw [h6]
    simp only []
    rw [hsecond.2.1]
    rw [h7]
    simp only []
    rw [hsecond.2.2]
    rw [hcos2]
    simp only []
    rw [hrel2]

/-- A database for the idempotence witness: no bills yet, two persons, one
committee, a cosponsor row and a related-bill row of some other bill. -/
def c2Db : DB :=
  { bills := [],
    cosponsors := [{ person := 300, bill := 9, joined := "j0", withdrawn := none,
                     role := some 7 }],
    relatedbills := [{ bill := 9, related_bill := 2, relation := none }],
    persons := [300, 301], committeeRows := [("HSAG", 21)], termRows := [],
    nextBillId := 1 }

/-- A document exercising the sponsor, a duplicated cosponsor (with a
different `joined` and an empty `withdrawn` on the second occurrence), a
resolvable, a blank and an unknown committee code, and a related-bill
reference resolving to the bill itself. -/
def c2Doc : BillNode :=
  { type_ := some "h", session := some "112", number := some "7",
    titles := [(some "official", some "introduced", some "An act.")],
    introduced := [some "2011-01-05"],
    state := [(some "2011-01-06", some "REFERRED")],
    sponsor := [some "300"],
    cosponsors := [{ id := some "301", joined := some "2011-01-07", withdrawn := none },
                   { id := some "301", joined := some "2011-01-08", withdrawn := some "" }],
    committees := [some "HSAG", some "", some "XX"],
    subjects := [],
    relatedbills := [{ session := some "112", ty := some "h", number := some "7",
                       relation := some "identical" }],
    actions := [] }

def c2BillOut : Bill :=
  { id := 1,
    data := { congress := 112, bill_type := 1, number := 7,
              titles := [(some "official", some "introduced", some "An act.")],
              title := some "An act.", introduced_date := "2011-01-05",
              current_status_date := "2011-01-06", current_status := 11,
              sponsor := some 300, sponsor_role := some 7 },
    committees := [21], terms := [], major_actions := [] }

def c2Res : PRes :=
  { db := { bills := [c2BillOut],
            cosponsors := [{ person := 300, bill := 9, joined := "j0", withdrawn := none,
                             role := some 7 },
                           { person := 301, bill := 1, joined := "2011-01-08",
                             withdrawn := none, role := some 7 }],
            relatedbills := [{ bill := 9, related_bill := 2, relation := none },
                             { bill := 1, related_bill := 1, relation := some "identical" }],
            persons := [300, 301], committeeRows := [("HSAG", 21)], termRows := [],
            nextBillId := 2 },
    bid := 1, logs := ["Could not find committee XX"] }

theorem c2_idempotent_witness :
    processBill testEnv c2Res.db c2Doc = Except.ok c2Res :=
  c2_idempotent testEnv c2Db c2Doc c2Res (by decide) (by decide) (by decide) rfl
